import Mathlib

/-!
# Transactional money transfer (`db/sqlc/store.go`)

A shallow embedding of `Store.execTx`, `Store.TransferTx` and `addMoney`.

The Go code talks to a relational store through three things that are not part
of `store.go`: the generated row accessors (`CreateTransfer`, `CreateEntry`,
`AddAccountBalance`), the row types, and the transaction primitive of
`database/sql` (`BeginTx`, `Commit`, `Rollback`).  They are modelled here as an
in-memory store with explicit state passing:

* `World.db` holds the committed tables, `World.txs` the working copies of the
  open transactions, keyed by handle;
* every interaction with the driver pops one element of `World.faults`, a
  script of injected failures, so that any accessor call, the begin, the commit
  and the rollback can each fail with any error;
* every interaction is appended, with its outcome, to `World.log`.

`int64` values are `Int`s; Go arithmetic on them is wrapped explicitly.
-/

namespace Bank

/-! ## int64 arithmetic -/

/-- Two's complement wrap-around of an integer into the `int64` range. -/
def wrap64 (x : Int) : Int :=
  (x + 9223372036854775808) % 18446744073709551616 - 9223372036854775808

/-- Go's unary minus on an `int64`. -/
def neg64 (x : Int) : Int := wrap64 (-x)

/-- Go's binary minus on two `int64`s. -/
def sub64 (x y : Int) : Int := wrap64 (x - y)

/-- The value is representable as an `int64`. -/
def isInt64 (x : Int) : Prop :=
  -9223372036854775808 ≤ x ∧ x < 9223372036854775808

instance (x : Int) : Decidable (isInt64 x) := by
  unfold isInt64; infer_instance

/-! ## Errors -/

/-- Go `error` values that can reach `store.go`. -/
inductive Error where
  /-- `sql.ErrNoRows`: the statement returned no row (not-found). -/
  | ErrNoRows
  /-- `sql.ErrTxDone`: the transaction handle is no longer open. -/
  | ErrTxDone
  /-- `context.Canceled`: the caller's cancellation fired. -/
  | Canceled
  /-- An error reported by the store (constraint violation, lost connection, ...). -/
  | pq (msg : String)
  /-- What `fmt.Errorf` builds when the format has no `%w` verb. -/
  | errorString (msg : String)
  deriving DecidableEq, Repr

set_option linter.dupNamespace false in
/-- The `Error()` method: the message of an error. -/
def Error.Error : Error → String
  | .ErrNoRows => "sql: no rows in result set"
  | .ErrTxDone => "sql: transaction has already been committed or rolled back"
  | .Canceled => "context canceled"
  | .pq msg => "pq: " ++ msg
  | .errorString msg => msg

/-- `fmt.Errorf("tx err: %v, rb err: %v", err, rbErr)`. -/
def fmtErrorf (err rbErr : Error) : Error :=
  .errorString ("tx err: " ++ err.Error ++ ", rb err: " ++ rbErr.Error)

/-! ## Rows -/

/-- Modelled from the spec: the `Account` row type (its declaration is generated
code outside `store.go`); the fields are those the tests read. -/
structure Account where
  ID : Int
  Owner : String
  Balance : Int
  Currency : String
  CreatedAt : Int
  deriving DecidableEq, Repr

/-- Modelled from the spec: the `Entry` row type. -/
structure Entry where
  ID : Int
  AccountID : Int
  Amount : Int
  CreatedAt : Int
  deriving DecidableEq, Repr

/-- Modelled from the spec: the `Transfer` row type. -/
structure Transfer where
  ID : Int
  FromAccountID : Int
  ToAccountID : Int
  Amount : Int
  CreatedAt : Int
  deriving DecidableEq, Repr

/-- The Go zero value of `Account`. -/
def Account.zero : Account := ⟨0, "", 0, "", 0⟩

/-- The Go zero value of `Entry`. -/
def Entry.zero : Entry := ⟨0, 0, 0, 0⟩

/-- The Go zero value of `Transfer`. -/
def Transfer.zero : Transfer := ⟨0, 0, 0, 0, 0⟩

/-- Parameters of the generated `CreateTransfer`. -/
structure CreateTransferParams where
  FromAccountID : Int
  ToAccountID : Int
  Amount : Int
  deriving DecidableEq, Repr

/-- Parameters of the generated `CreateEntry`. -/
structure CreateEntryParams where
  AccountID : Int
  Amount : Int
  deriving DecidableEq, Repr

/-- Parameters of the generated `AddAccountBalance`. -/
structure AddAccountBalanceParams where
  ID : Int
  Amount : Int
  deriving DecidableEq, Repr

/-- `TransferTxParams` of `store.go`. -/
structure TransferTxParams where
  FromAccountID : Int
  ToAccountID : Int
  Amount : Int
  deriving DecidableEq, Repr

/-- `TransferTxResult` of `store.go`. -/
structure TransferTxResult where
  Transfer : Transfer
  FromAccount : Account
  ToAccount : Account
  FromEntry : Entry
  ToEntry : Entry
  deriving DecidableEq, Repr

/-- The Go zero value of `TransferTxResult` (`var result TransferTxResult`). -/
def TransferTxResult.zero : TransferTxResult :=
  ⟨Transfer.zero, Account.zero, Account.zero, Entry.zero, Entry.zero⟩

/-! ## The store -/

/-- The three tables. -/
structure DB where
  accounts : List Account
  entries : List Entry
  transfers : List Transfer
  deriving DecidableEq, Repr

/-- What a statement reads besides the tables: the id sequences, the clock, and
whether the store rejects a balance that leaves the `int64` range (`true`) or
wraps it (`false`).  The sequences are not transactional. -/
structure Env where
  transferSeq : Int
  entrySeq : Int
  clock : Int
  checked : Bool
  deriving DecidableEq, Repr

/-- `DBTX`: what a `Queries` is bound to, the shared pool or one transaction. -/
inductive DBTX where
  | pool
  | tx (h : Nat)
  deriving DecidableEq, Repr

/-- One interaction with the driver. -/
inductive Call where
  | BeginTx
  | Commit (h : Nat)
  | Rollback (h : Nat)
  | CreateTransfer (db : DBTX) (arg : CreateTransferParams)
  | CreateEntry (db : DBTX) (arg : CreateEntryParams)
  | AddAccountBalance (db : DBTX) (arg : AddAccountBalanceParams)
  deriving DecidableEq, Repr

/-- A logged interaction and its outcome. -/
structure LogEntry where
  call : Call
  err : Option Error
  deriving DecidableEq, Repr

/-- The state of the store and of its environment. -/
structure World where
  /-- The committed tables. -/
  db : DB
  /-- The working copies of the open transactions. -/
  txs : List (Nat × DB)
  /-- The next transaction handle. -/
  nextTx : Nat
  env : Env
  /-- The script of injected failures, one element per driver interaction. -/
  faults : List (Option Error)
  log : List LogEntry
  deriving DecidableEq, Repr

/-- The failure injected into the next driver interaction, if any. -/
def nextFault : List (Option Error) → Option Error
  | [] => none
  | f :: _ => f

/-- The working copy of transaction `h`. -/
def txLookup (h : Nat) : List (Nat × DB) → Option DB
  | [] => none
  | (k, d) :: rest => if k = h then some d else txLookup h rest

/-- Replace the working copy of transaction `h`. -/
def txStore (h : Nat) (d : DB) : List (Nat × DB) → List (Nat × DB)
  | [] => []
  | (k, d0) :: rest => if k = h then (k, d) :: rest else (k, d0) :: txStore h d rest

/-- Close transaction `h`. -/
def txDrop (h : Nat) : List (Nat × DB) → List (Nat × DB)
  | [] => []
  | (k, d0) :: rest => if k = h then rest else (k, d0) :: txDrop h rest

/-- The tables a handle sees. -/
def World.view (w : World) : DBTX → Option DB
  | .pool => some w.db
  | .tx h => txLookup h w.txs

/-- Write the tables a handle sees. -/
def World.put (w : World) (h : DBTX) (d : DB) : World :=
  match h with
  | .pool => { w with db := d }
  | .tx k => { w with txs := txStore k d w.txs }

/-- Append an interaction to the log. -/
def World.record (w : World) (c : Call) (e : Option Error) : World :=
  { w with log := w.log ++ [⟨c, e⟩] }

/-- Consume one element of the failure script. -/
def World.popFault (w : World) : World :=
  { w with faults := w.faults.tail }

/-! ## The transaction primitive -/

/-- Modelled from the spec: `begin() -> transaction handle` (`db.BeginTx` of
`database/sql`).  The new transaction works on a copy of the committed tables. -/
def BeginTx (w : World) : (Nat × Option Error) × World :=
  match nextFault w.faults with
  | some e => ((0, some e), w.popFault.record .BeginTx (some e))
  | none =>
    ((w.nextTx, none),
      { w.popFault.record .BeginTx none with
        txs := (w.nextTx, w.db) :: w.txs, nextTx := w.nextTx + 1 })

/-- Modelled from the spec: `commit(handle)` (`tx.Commit`).  On success the
working copy becomes the committed tables; on failure nothing of it persists.
Either way the handle is closed. -/
def Commit (h : Nat) (w : World) : Option Error × World :=
  match txLookup h w.txs with
  | none => (some .ErrTxDone, w.record (.Commit h) (some .ErrTxDone))
  | some d =>
    match nextFault w.faults with
    | some e =>
      (some e, { w.popFault.record (.Commit h) (some e) with txs := txDrop h w.txs })
    | none =>
      (none, { w.popFault.record (.Commit h) none with db := d, txs := txDrop h w.txs })

/-- Modelled from the spec: `rollback(handle)` (`tx.Rollback`).  The working
copy is discarded, also when the rollback itself reports a failure: writes of a
transaction that was not committed never persist. -/
def Rollback (h : Nat) (w : World) : Option Error × World :=
  match txLookup h w.txs with
  | none => (some .ErrTxDone, w.record (.Rollback h) (some .ErrTxDone))
  | some _ =>
    match nextFault w.faults with
    | some e =>
      (some e, { w.popFault.record (.Rollback h) (some e) with txs := txDrop h w.txs })
    | none =>
      (none, { w.popFault.record (.Rollback h) none with txs := txDrop h w.txs })

/-! ## The row accessors -/

/-- `Queries`: the row accessors bound to one handle. -/
structure Queries where
  db : DBTX
  deriving DecidableEq, Repr

/-- `New(db DBTX) *Queries`. -/
def New (db : DBTX) : Queries := ⟨db⟩

/-- Modelled from the spec: how every generated accessor runs one statement on
the handle it is bound to.  A closed handle, an injected failure or a failure
of the statement return the zero row with the error and leave the tables as
they were. -/
def Queries.exec {α : Type} (q : Queries) (call : Call) (zero : α)
    (stmt : Env → DB → Except Error (α × DB × Env)) (w : World) :
    (α × Option Error) × World :=
  match w.view q.db with
  | none => ((zero, some .ErrTxDone), w.record call (some .ErrTxDone))
  | some d =>
    match nextFault w.faults with
    | some e => ((zero, some e), w.popFault.record call (some e))
    | none =>
      match stmt w.env d with
      | .error e => ((zero, some e), w.popFault.record call (some e))
      | .ok (i, d2, env2) =>
        ((i, none), { (w.popFault.put q.db d2).record call none with env := env2 })

/-- An account with this id exists. -/
def DB.hasAccount (d : DB) (id : Int) : Bool :=
  d.accounts.any (fun a => decide (a.ID = id))

/-- The first account row with this id. -/
def DB.getAccount (d : DB) (id : Int) : Option Account :=
  d.accounts.find? (fun a => decide (a.ID = id))

/-- Modelled from the spec: the statement of `create-transfer(from, to, amount)
-> Transfer`.  Both account ids must reference existing accounts (referential
integrity of the row store); the amount is stored as given. -/
def createTransferStmt (arg : CreateTransferParams) (env : Env) (d : DB) :
    Except Error (Transfer × DB × Env) :=
  if d.hasAccount arg.FromAccountID = true ∧ d.hasAccount arg.ToAccountID = true then
    let i : Transfer :=
      { ID := env.transferSeq, FromAccountID := arg.FromAccountID,
        ToAccountID := arg.ToAccountID, Amount := arg.Amount, CreatedAt := env.clock }
    .ok (i, { d with transfers := d.transfers ++ [i] },
      { env with transferSeq := env.transferSeq + 1 })
  else .error (.pq "violates foreign key constraint")

/-- Modelled from the spec: the statement of `create-entry(account_id, amount)
-> Entry`. -/
def createEntryStmt (arg : CreateEntryParams) (env : Env) (d : DB) :
    Except Error (Entry × DB × Env) :=
  if d.hasAccount arg.AccountID = true then
    let i : Entry :=
      { ID := env.entrySeq, AccountID := arg.AccountID, Amount := arg.Amount,
        CreatedAt := env.clock }
    .ok (i, { d with entries := d.entries ++ [i] },
      { env with entrySeq := env.entrySeq + 1 })
  else .error (.pq "violates foreign key constraint")

/-- The row of `a` after `balance = balance + amount where id = $id`. -/
def bumpBalance (arg : AddAccountBalanceParams) (a : Account) : Account :=
  if a.ID = arg.ID then { a with Balance := wrap64 (a.Balance + arg.Amount) } else a

/-- Modelled from the spec: the statement of `increment-account-balance(
account_id, delta) -> Account`, one update that writes and returns the new
row.  No row with that id is the not-found error.  A store that checks the
range (`env.checked`) rejects a sum outside `int64`. -/
def addAccountBalanceStmt (arg : AddAccountBalanceParams) (env : Env) (d : DB) :
    Except Error (Account × DB × Env) :=
  match d.getAccount arg.ID with
  | none => .error .ErrNoRows
  | some a =>
    if env.checked = true ∧
        d.accounts.any (fun r => decide (r.ID = arg.ID ∧ ¬ isInt64 (r.Balance + arg.Amount)))
          = true then
      .error (.pq "bigint out of range")
    else
      .ok (bumpBalance arg a, { d with accounts := d.accounts.map (bumpBalance arg) }, env)

/-- The generated `(q *Queries) CreateTransfer`. -/
def Queries.CreateTransfer (q : Queries) (arg : CreateTransferParams) (w : World) :
    (Transfer × Option Error) × World :=
  q.exec (.CreateTransfer q.db arg) Transfer.zero (createTransferStmt arg) w

/-- The generated `(q *Queries) CreateEntry`. -/
def Queries.CreateEntry (q : Queries) (arg : CreateEntryParams) (w : World) :
    (Entry × Option Error) × World :=
  q.exec (.CreateEntry q.db arg) Entry.zero (createEntryStmt arg) w

/-- The generated `(q *Queries) AddAccountBalance`. -/
def Queries.AddAccountBalance (q : Queries) (arg : AddAccountBalanceParams) (w : World) :
    (Account × Option Error) × World :=
  q.exec (.AddAccountBalance q.db arg) Account.zero (addAccountBalanceStmt arg) w

/-! ## `store.go` -/

/-- `Store`: the row accessors bound to the pool, and the pool itself, whose
state is the `World`. -/
structure Store where
  Queries : Queries
  deriving DecidableEq, Repr

/-- `NewStore(db *sql.DB) *Store`. -/
def NewStore : Store := ⟨New .pool⟩

/-- `(store *Store) execTx(ctx, fn)`.  The closure `fn` may write the variables
it captured; they are the state `ρ` threaded through it. -/
def Store.execTx {ρ : Type} (_store : Store)
    (fn : Bank.Queries → ρ → World → (ρ × Option Error) × World) (captured : ρ) (w : World) :
    (ρ × Option Error) × World :=
  match BeginTx w with
  | ((_, some err), w1) => ((captured, some err), w1)
  | ((tx, none), w1) =>
    let q := New (.tx tx)
    match fn q captured w1 with
    | ((captured2, some err), w2) =>
      match Rollback tx w2 with
      | (some rbErr, w3) => ((captured2, some (fmtErrorf err rbErr)), w3)
      | (none, w3) => ((captured2, some err), w3)
    | ((captured2, none), w2) =>
      match Commit tx w2 with
      | (err, w3) => ((captured2, err), w3)

/-- `addMoney(ctx, q, accountID1, amount1, accountID2, amount2)`, with its
named results `account1`, `account2`, `err`. -/
def addMoney (q : Queries) (accountID1 amount1 accountID2 amount2 : Int) (w : World) :
    (Account × Account × Option Error) × World :=
  match q.AddAccountBalance { ID := accountID1, Amount := amount1 } w with
  | ((account1, some err), w1) => ((account1, Account.zero, some err), w1)
  | ((account1, none), w1) =>
    match q.AddAccountBalance { ID := accountID2, Amount := amount2 } w1 with
    | ((account2, err), w2) => ((account1, account2, err), w2)

/-- The closure `func(q *Queries) error` of `TransferTx`; it writes the
captured `result`. -/
def transferFn (arg : TransferTxParams) (q : Queries) (result : TransferTxResult)
    (w : World) : (TransferTxResult × Option Error) × World :=
  match q.CreateTransfer
      { FromAccountID := arg.FromAccountID, ToAccountID := arg.ToAccountID,
        Amount := arg.Amount } w with
  | ((transfer, some err), w1) => (({ result with Transfer := transfer }, some err), w1)
  | ((transfer, none), w1) =>
    let result := { result with Transfer := transfer }
    match q.CreateEntry { AccountID := arg.FromAccountID, Amount := neg64 arg.Amount } w1 with
    | ((fromEntry, some err), w2) => (({ result with FromEntry := fromEntry }, some err), w2)
    | ((fromEntry, none), w2) =>
      let result := { result with FromEntry := fromEntry }
      match q.CreateEntry { AccountID := arg.ToAccountID, Amount := arg.Amount } w2 with
      | ((toEntry, some err), w3) => (({ result with ToEntry := toEntry }, some err), w3)
      | ((toEntry, none), w3) =>
        let result := { result with ToEntry := toEntry }
        if arg.FromAccountID < arg.ToAccountID then
          match addMoney q arg.FromAccountID (neg64 arg.Amount) arg.ToAccountID arg.Amount w3 with
          | ((account1, account2, err), w4) =>
            (({ result with FromAccount := account1, ToAccount := account2 }, err), w4)
        else
          match addMoney q arg.ToAccountID arg.Amount arg.FromAccountID (neg64 arg.Amount) w3 with
          | ((account1, account2, err), w4) =>
            (({ result with ToAccount := account1, FromAccount := account2 }, err), w4)

/-- `(store *Store) TransferTx(ctx, arg)`. -/
def Store.TransferTx (store : Store) (arg : TransferTxParams) (w : World) :
    (TransferTxResult × Option Error) × World :=
  store.execTx (transferFn arg) TransferTxResult.zero w

/-! ## Summaries used in the statements below -/

/-- The world right after a successful `BeginTx`. -/
def World.begun (w : World) : World :=
  { w.popFault.record .BeginTx none with
    txs := (w.nextTx, w.db) :: w.txs, nextTx := w.nextTx + 1 }

/-- The Transfer row a transfer inserts. -/
def transferRow (arg : TransferTxParams) (env : Env) : Transfer :=
  ⟨env.transferSeq, arg.FromAccountID, arg.ToAccountID, arg.Amount, env.clock⟩

/-- The Entry row a transfer inserts for its source. -/
def fromEntryRow (arg : TransferTxParams) (env : Env) : Entry :=
  ⟨env.entrySeq, arg.FromAccountID, neg64 arg.Amount, env.clock⟩

/-- The Entry row a transfer inserts for its destination. -/
def toEntryRow (arg : TransferTxParams) (env : Env) : Entry :=
  ⟨env.entrySeq + 1, arg.ToAccountID, arg.Amount, env.clock⟩

/-- The balance increment a transfer issues first. -/
def firstIncrement (arg : TransferTxParams) : AddAccountBalanceParams :=
  if arg.FromAccountID < arg.ToAccountID then ⟨arg.FromAccountID, neg64 arg.Amount⟩
  else ⟨arg.ToAccountID, arg.Amount⟩

/-- The balance increment a transfer issues second. -/
def secondIncrement (arg : TransferTxParams) : AddAccountBalanceParams :=
  if arg.FromAccountID < arg.ToAccountID then ⟨arg.ToAccountID, arg.Amount⟩
  else ⟨arg.FromAccountID, neg64 arg.Amount⟩

/-- The three inserts of a transfer, as logged. -/
def insertCalls (arg : TransferTxParams) (h : Nat) : List Call :=
  [.CreateTransfer (.tx h) ⟨arg.FromAccountID, arg.ToAccountID, arg.Amount⟩,
   .CreateEntry (.tx h) ⟨arg.FromAccountID, neg64 arg.Amount⟩,
   .CreateEntry (.tx h) ⟨arg.ToAccountID, arg.Amount⟩]

/-- Log entries of calls that reported no error. -/
def okEntries (cs : List Call) : List LogEntry :=
  cs.map (fun c => ⟨c, none⟩)

/-- The result of a transfer whose five accessor calls succeeded, `r1` and `r2`
being the rows the first and the second balance increment found. -/
def fullResult (arg : TransferTxParams) (env : Env) (r1 r2 : Account) : TransferTxResult :=
  { Transfer := transferRow arg env, FromEntry := fromEntryRow arg env,
    ToEntry := toEntryRow arg env,
    FromAccount := if arg.FromAccountID < arg.ToAccountID
      then bumpBalance (firstIncrement arg) r1 else bumpBalance (secondIncrement arg) r2,
    ToAccount := if arg.FromAccountID < arg.ToAccountID
      then bumpBalance (secondIncrement arg) r2 else bumpBalance (firstIncrement arg) r1 }

/-- The runs of the unit of work of `TransferTx` that stop at a failing accessor
call: the error `f` of that call, the calls logged, and the `result` written by
then.  `env` and `d` are the environment and the tables the unit of work
started from, `h` is its transaction. -/
inductive FailedRun (arg : TransferTxParams) (env : Env) (d : DB) (h : Nat) (f : Error) :
    List LogEntry → TransferTxResult → Prop where
  | createTransfer :
    FailedRun arg env d h f
      [⟨.CreateTransfer (.tx h) ⟨arg.FromAccountID, arg.ToAccountID, arg.Amount⟩, some f⟩]
      TransferTxResult.zero
  | fromEntry :
    FailedRun arg env d h f
      [⟨.CreateTransfer (.tx h) ⟨arg.FromAccountID, arg.ToAccountID, arg.Amount⟩, none⟩,
       ⟨.CreateEntry (.tx h) ⟨arg.FromAccountID, neg64 arg.Amount⟩, some f⟩]
      { TransferTxResult.zero with Transfer := transferRow arg env }
  | toEntry :
    FailedRun arg env d h f
      [⟨.CreateTransfer (.tx h) ⟨arg.FromAccountID, arg.ToAccountID, arg.Amount⟩, none⟩,
       ⟨.CreateEntry (.tx h) ⟨arg.FromAccountID, neg64 arg.Amount⟩, none⟩,
       ⟨.CreateEntry (.tx h) ⟨arg.ToAccountID, arg.Amount⟩, some f⟩]
      { TransferTxResult.zero with
        Transfer := transferRow arg env, FromEntry := fromEntryRow arg env }
  | firstIncrement :
    FailedRun arg env d h f
      (okEntries (insertCalls arg h) ++
        [⟨.AddAccountBalance (.tx h) (firstIncrement arg), some f⟩])
      { TransferTxResult.zero with
        Transfer := transferRow arg env, FromEntry := fromEntryRow arg env,
        ToEntry := toEntryRow arg env }
  | secondIncrement (r1 : Account) (hr1 : d.getAccount (firstIncrement arg).ID = some r1) :
    FailedRun arg env d h f
      (okEntries (insertCalls arg h) ++
        [⟨.AddAccountBalance (.tx h) (firstIncrement arg), none⟩,
         ⟨.AddAccountBalance (.tx h) (secondIncrement arg), some f⟩])
      { Transfer := transferRow arg env, FromEntry := fromEntryRow arg env,
        ToEntry := toEntryRow arg env,
        FromAccount := if arg.FromAccountID < arg.ToAccountID
          then bumpBalance (firstIncrement arg) r1 else Account.zero,
        ToAccount := if arg.FromAccountID < arg.ToAccountID
          then Account.zero else bumpBalance (firstIncrement arg) r1 }

/-- The call is one of the row accessors, not begin, commit or rollback. -/
def Call.isAccessor : Call → Bool
  | .CreateTransfer _ _ => true
  | .CreateEntry _ _ => true
  | .AddAccountBalance _ _ => true
  | _ => false

/-! ## Sequences of transfers -/

/-- Run the transfers one after the other, as a caller that stops at the first
error does; the result is the world after the last one when every call
committed. -/
def runTransfers (store : Store) : List TransferTxParams → World → Option World
  | [], w => some w
  | p :: ps, w =>
    match store.TransferTx p w with
    | ((_, none), w2) => runTransfers store ps w2
    | ((_, some _), _) => none

/-- The signed amount of one transfer for account `id`: `-amount` when `id` is
its source, `+amount` when `id` is its destination. -/
def signedAmount (id : Int) (p : TransferTxParams) : Int :=
  (if p.FromAccountID = id then -p.Amount else 0) + (if p.ToAccountID = id then p.Amount else 0)

/-- The sum of the signed amounts of the transfers for account `id`. -/
def netAmount (id : Int) (ps : List TransferTxParams) : Int :=
  (ps.map (signedAmount id)).sum

/-- `n` transfers of one amount between `a` and `b`, alternating direction and
starting with `a -> b` (the calls of `TestTransferTxDeadlock`). -/
def alternating (a b amount : Int) : Nat → List TransferTxParams
  | 0 => []
  | n + 1 => ⟨a, b, amount⟩ :: alternating b a amount n

/-- No failure is injected into the next `n` driver interactions. -/
def quietFor (n : Nat) (faults : List (Option Error)) : Prop :=
  ∀ f ∈ faults.take n, f = none

/-! ## The ledger invariant -/

/-- The sum of the amounts of the Entry rows of account `id`. -/
def entrySum (entries : List Entry) (id : Int) : Int :=
  ((entries.filter (fun e => decide (e.AccountID = id))).map Entry.Amount).sum

/-- Every account's balance is its opening value plus the sum of its entries. -/
def ledgerHolds (opening : Int → Int) (d : DB) : Prop :=
  ∀ a ∈ d.accounts, a.Balance = opening a.ID + entrySum d.entries a.ID

/-- The ledger equation with the sum taken in `int64`. -/
def ledgerHolds64 (opening : Int → Int) (d : DB) : Prop :=
  ∀ a ∈ d.accounts, wrap64 a.Balance = wrap64 (opening a.ID + entrySum d.entries a.ID)

/-! ## Concrete worlds -/

/-- A world in which the second entry insert of a transfer from account 1 to
account 2 is made to fail. -/
def atomicityWorld : World :=
  { db := ⟨[⟨1, "ann", 1000, "USD", 0⟩, ⟨2, "bob", 500, "USD", 0⟩], [], []⟩,
    txs := [], nextTx := 0, env := ⟨1, 1, 0, true⟩,
    faults := [none, none, none, some .Canceled], log := [] }

/-- The world of the scenario of the spec: account 1 holds 1000, account 2
holds 500, no failure is injected. -/
def scenarioWorld : World :=
  { db := ⟨[⟨1, "ann", 1000, "USD", 0⟩, ⟨2, "bob", 500, "USD", 0⟩], [], []⟩,
    txs := [], nextTx := 0, env := ⟨1, 1, 0, true⟩, faults := [], log := [] }

/-- The world of a transfer from account 2 to account 1, the source having the
larger id. -/
def reverseWorld : World :=
  { db := ⟨[⟨1, "ann", 1000, "USD", 0⟩, ⟨2, "bob", 500, "USD", 0⟩], [], []⟩,
    txs := [], nextTx := 7, env := ⟨1, 1, 0, false⟩, faults := [], log := [] }

/-- A world in which the entry insert for the source fails: the connection is
lost after the transfer row was created in the transaction. -/
def partialWorld : World :=
  { db := ⟨[⟨1, "ann", 1000, "USD", 0⟩, ⟨2, "bob", 500, "USD", 0⟩], [], []⟩,
    txs := [], nextTx := 0, env := ⟨1, 1, 0, true⟩,
    faults := [none, none, some (.pq "connection lost")], log := [] }

/-- A world in which the second balance increment fails and the rollback fails
as well. -/
def rollbackFailsWorld : World :=
  { db := ⟨[⟨1, "ann", 1000, "USD", 0⟩, ⟨2, "bob", 500, "USD", 0⟩], [], []⟩,
    txs := [], nextTx := 0, env := ⟨1, 1, 0, true⟩,
    faults := [none, none, none, none, none, some .Canceled, some (.pq "broken pipe")],
    log := [] }

/-- The opening balances of `scenarioWorld`. -/
def scenarioOpening (id : Int) : Int :=
  if id = 1 then 1000 else 500

/-! ## Frame lemmas: what an accessor bound to a transaction leaves alone -/

theorem exec_tx_db {α : Type} (h : Nat) (call : Call) (zero : α)
    (stmt : Env → DB → Except Error (α × DB × Env)) (w : World) :
    ((New (.tx h)).exec call zero stmt w).2.db = w.db := by
  unfold Queries.exec
  split
  · rfl
  · split
    · rfl
    · split <;> rfl

theorem exec_tx_db_of_eq {α : Type} {h : Nat} {call : Call} {zero : α}
    {stmt : Env → DB → Except Error (α × DB × Env)} {w w2 : World} {r : α × Option Error}
    (heq : (New (.tx h)).exec call zero stmt w = (r, w2)) : w2.db = w.db := by
  have := exec_tx_db h call zero stmt w
  rw [heq] at this
  exact this

theorem addMoney_tx_db (h : Nat) (id1 a1 id2 a2 : Int) (w : World) :
    (addMoney (New (.tx h)) id1 a1 id2 a2 w).2.db = w.db := by
  unfold addMoney Queries.AddAccountBalance
  split
  · next heq => exact exec_tx_db_of_eq heq
  · next heq =>
    split
    next heq2 => exact (exec_tx_db_of_eq heq2).trans (exec_tx_db_of_eq heq)

theorem addMoney_tx_db_of_eq {h : Nat} {id1 a1 id2 a2 : Int} {w w2 : World}
    {r : Account × Account × Option Error}
    (heq : addMoney (New (.tx h)) id1 a1 id2 a2 w = (r, w2)) : w2.db = w.db := by
  have := addMoney_tx_db h id1 a1 id2 a2 w
  rw [heq] at this
  exact this

theorem transferFn_tx_db (arg : TransferTxParams) (h : Nat) (r : TransferTxResult) (w : World) :
    (transferFn arg (New (.tx h)) r w).2.db = w.db := by
  unfold transferFn Queries.CreateTransfer Queries.CreateEntry
  split
  · next heq => exact exec_tx_db_of_eq heq
  · next heq =>
    split
    · next heq2 => exact (exec_tx_db_of_eq heq2).trans (exec_tx_db_of_eq heq)
    · next heq2 =>
      split
      · next heq3 =>
        exact (exec_tx_db_of_eq heq3).trans ((exec_tx_db_of_eq heq2).trans (exec_tx_db_of_eq heq))
      · next heq3 =>
        have h3 := (exec_tx_db_of_eq heq3).trans
          ((exec_tx_db_of_eq heq2).trans (exec_tx_db_of_eq heq))
        split
        · split
          next heq4 => exact (addMoney_tx_db_of_eq heq4).trans h3
        · split
          next heq4 => exact (addMoney_tx_db_of_eq heq4).trans h3

theorem BeginTx_db (w : World) : (BeginTx w).2.db = w.db := by
  unfold BeginTx
  split <;> rfl

theorem Rollback_db (h : Nat) (w : World) : (Rollback h w).2.db = w.db := by
  unfold Rollback
  split
  · rfl
  · split <;> rfl

theorem Commit_db_of_err (h : Nat) (w : World) (herr : (Commit h w).1 ≠ none) :
    (Commit h w).2.db = w.db := by
  unfold Commit at herr ⊢
  cases hl : txLookup h w.txs with
  | none => rfl
  | some d =>
    cases hf : nextFault w.faults with
    | none => simp [hl, hf] at herr
    | some e => rfl

/-- The executor is atomic for every unit of work that writes only through the
accessor it is given: when `execTx` returns an error the committed tables are
those it started from. -/
theorem execTx_db_of_err {ρ : Type} (store : Store)
    (fn : Queries → ρ → World → (ρ × Option Error) × World)
    (hfn : ∀ h r w, (fn (New (.tx h)) r w).2.db = w.db) (r : ρ) (w : World)
    (herr : (store.execTx fn r w).1.2 ≠ none) : (store.execTx fn r w).2.db = w.db := by
  have hb1 := BeginTx_db w
  rcases hb : BeginTx w with ⟨⟨tx, berr⟩, w1⟩
  rw [hb] at hb1
  cases berr with
  | some e => simpa [Store.execTx, hb] using hb1
  | none =>
    have hf1 := hfn tx r w1
    rcases hf : fn (New (.tx tx)) r w1 with ⟨⟨r2, ferr⟩, w2⟩
    rw [hf] at hf1
    cases ferr with
    | some e =>
      have hr := Rollback_db tx w2
      rcases hrb : Rollback tx w2 with ⟨rerr, w3⟩
      rw [hrb] at hr
      have : w3.db = w.db := hr.trans (hf1.trans hb1)
      cases rerr <;> simpa [Store.execTx, hb, hf, hrb] using this
    | none =>
      simp only [Store.execTx, hb, hf] at herr ⊢
      have hc := Commit_db_of_err tx w2 herr
      exact hc.trans (hf1.trans hb1)

/-- C1. Atomicity of `TransferTx`: for every store state, every failure script
and every `TransferTxParams`, if `TransferTx` returns a non-nil error (the
begin, the transfer insert, an entry insert, a balance increment, the commit or
the rollback failed) then the committed tables after the call are the committed
tables before it: no Transfer row, no Entry row and no account differs. -/
theorem TransferTx_atomic (store : Store) (arg : TransferTxParams) (w : World)
    (herr : (store.TransferTx arg w).1.2 ≠ none) : (store.TransferTx arg w).2.db = w.db :=
  execTx_db_of_err store (transferFn arg) (transferFn_tx_db arg) TransferTxResult.zero w herr

theorem TransferTx_atomic_witness :
    (NewStore.TransferTx ⟨1, 2, 100⟩ atomicityWorld).1.2 = some .Canceled ∧
    (NewStore.TransferTx ⟨1, 2, 100⟩ atomicityWorld).1.1.Transfer.Amount = 100 ∧
    (NewStore.TransferTx ⟨1, 2, 100⟩ atomicityWorld).2.db = atomicityWorld.db :=
  ⟨by decide, by decide,
    TransferTx_atomic NewStore ⟨1, 2, 100⟩ atomicityWorld (by decide)⟩


theorem txLookup_head (h : Nat) (d : DB) (rest : List (Nat × DB)) :
    txLookup h ((h, d) :: rest) = some d := by
  simp [txLookup]

theorem txStore_head (h : Nat) (d d2 : DB) (rest : List (Nat × DB)) :
    txStore h d2 ((h, d) :: rest) = (h, d2) :: rest := by
  simp [txStore]

theorem txDrop_head (h : Nat) (d : DB) (rest : List (Nat × DB)) :
    txDrop h ((h, d) :: rest) = rest := by
  simp [txDrop]

/-- One accessor call on an open transaction: what it returns and the world it
leaves. -/
theorem exec_tx_inv {α : Type} {h : Nat} {call : Call} {zero : α}
    {stmt : Env → DB → Except Error (α × DB × Env)} {w w2 : World} {d : DB}
    {rest : List (Nat × DB)} {i : α} {e : Option Error}
    (htx : w.txs = (h, d) :: rest)
    (heq : (New (.tx h)).exec call zero stmt w = ((i, e), w2)) :
    ∃ d2 env2,
      w2 = { w with txs := (h, d2) :: rest, env := env2, faults := w.faults.tail,
                    log := w.log ++ [⟨call, e⟩] } ∧
      ((e = none ∧ stmt w.env d = .ok (i, d2, env2)) ∨
        (e ≠ none ∧ i = zero ∧ d2 = d ∧ env2 = w.env)) := by
  unfold Queries.exec at heq
  simp only [New, World.view, htx, txLookup_head] at heq
  cases hf : nextFault w.faults with
  | some f =>
    simp only [hf, Prod.mk.injEq] at heq
    obtain ⟨⟨hi, he⟩, hw⟩ := heq
    refine ⟨d, w.env, ?_, Or.inr ⟨?_, hi.symm, rfl, rfl⟩⟩
    · rw [← hw, ← he, ← htx]; rfl
    · rw [← he]; simp
  | none =>
    simp only [hf] at heq
    cases hs : stmt w.env d with
    | error f =>
      simp only [hs, Prod.mk.injEq] at heq
      obtain ⟨⟨hi, he⟩, hw⟩ := heq
      refine ⟨d, w.env, ?_, Or.inr ⟨?_, hi.symm, rfl, rfl⟩⟩
      · rw [← hw, ← he, ← htx]; rfl
      · rw [← he]; simp
    | ok v =>
      obtain ⟨i2, d2, env2⟩ := v
      simp only [hs, Prod.mk.injEq] at heq
      obtain ⟨⟨hi, he⟩, hw⟩ := heq
      refine ⟨d2, env2, ?_, Or.inl ⟨he.symm, ?_⟩⟩
      · rw [← hw, ← he]
        simp [World.put, World.record, World.popFault, htx, txStore_head]
      · rw [hi]

theorem createTransferStmt_ok {arg : CreateTransferParams} {env env2 : Env} {d d2 : DB}
    {i : Transfer} (h : createTransferStmt arg env d = .ok (i, d2, env2)) :
    i = ⟨env.transferSeq, arg.FromAccountID, arg.ToAccountID, arg.Amount, env.clock⟩ ∧
    d2 = { d with transfers := d.transfers ++ [i] } ∧
    env2 = { env with transferSeq := env.transferSeq + 1 } ∧
    d.hasAccount arg.FromAccountID = true ∧ d.hasAccount arg.ToAccountID = true := by
  unfold createTransferStmt at h
  split at h
  · next hc =>
    simp only [Except.ok.injEq, Prod.mk.injEq] at h
    obtain ⟨hi, hd, he⟩ := h
    subst hi
    exact ⟨rfl, hd.symm, he.symm, hc.1, hc.2⟩
  · cases h

theorem createEntryStmt_ok {arg : CreateEntryParams} {env env2 : Env} {d d2 : DB}
    {i : Entry} (h : createEntryStmt arg env d = .ok (i, d2, env2)) :
    i = ⟨env.entrySeq, arg.AccountID, arg.Amount, env.clock⟩ ∧
    d2 = { d with entries := d.entries ++ [i] } ∧
    env2 = { env with entrySeq := env.entrySeq + 1 } ∧
    d.hasAccount arg.AccountID = true := by
  unfold createEntryStmt at h
  split at h
  · next hc =>
    simp only [Except.ok.injEq, Prod.mk.injEq] at h
    obtain ⟨hi, hd, he⟩ := h
    subst hi
    exact ⟨rfl, hd.symm, he.symm, hc⟩
  · cases h

theorem addAccountBalanceStmt_ok {arg : AddAccountBalanceParams} {env env2 : Env} {d d2 : DB}
    {i : Account} (h : addAccountBalanceStmt arg env d = .ok (i, d2, env2)) :
    ∃ a, d.getAccount arg.ID = some a ∧ i = bumpBalance arg a ∧
      d2 = { d with accounts := d.accounts.map (bumpBalance arg) } ∧ env2 = env ∧
      (env.checked = true → ∀ r ∈ d.accounts, r.ID = arg.ID → isInt64 (r.Balance + arg.Amount)) := by
  unfold addAccountBalanceStmt at h
  split at h
  · cases h
  · next a ha =>
    split at h
    · cases h
    · next hc =>
      simp only [Except.ok.injEq, Prod.mk.injEq] at h
      obtain ⟨hi, hd, he⟩ := h
      refine ⟨a, ha, hi.symm, hd.symm, he.symm, ?_⟩
      intro hck r hr hid
      by_contra hno
      apply hc
      refine ⟨hck, ?_⟩
      rw [List.any_eq_true]
      exact ⟨r, hr, by simp [hid, hno]⟩


theorem tail_eq_drop_one {α : Type} (l : List α) : l.tail = l.drop 1 := by
  cases l <;> rfl

theorem drop_tail_eq_drop_succ {α : Type} (n : Nat) (l : List α) :
    (l.drop n).tail = l.drop (n + 1) := by
  induction n generalizing l with
  | zero => cases l <;> rfl
  | succ n ih => cases l with
    | nil => rfl
    | cons a l => simp [ih l]

/-- The two balance increments of `addMoney` on an open transaction. -/
theorem addMoney_tx_inv {h : Nat} {id1 a1 id2 a2 : Int} {w w2 : World} {d : DB}
    {rest : List (Nat × DB)} {acc1 acc2 : Account} {e : Option Error}
    (htx : w.txs = (h, d) :: rest)
    (heq : addMoney (New (.tx h)) id1 a1 id2 a2 w = ((acc1, acc2, e), w2)) :
    ∃ d2 calls,
      w2 = { w with txs := (h, d2) :: rest, faults := w.faults.drop calls.length,
                    log := w.log ++ calls } ∧
      ((e ≠ none ∧ calls = [⟨.AddAccountBalance (.tx h) ⟨id1, a1⟩, e⟩] ∧
          acc1 = Account.zero ∧ acc2 = Account.zero) ∨
        (∃ r1, d.getAccount id1 = some r1 ∧ acc1 = bumpBalance ⟨id1, a1⟩ r1 ∧
          e ≠ none ∧ acc2 = Account.zero ∧
          calls = [⟨.AddAccountBalance (.tx h) ⟨id1, a1⟩, none⟩,
                   ⟨.AddAccountBalance (.tx h) ⟨id2, a2⟩, e⟩]) ∨
        (∃ r1 r2, d.getAccount id1 = some r1 ∧ acc1 = bumpBalance ⟨id1, a1⟩ r1 ∧
          DB.getAccount { d with accounts := d.accounts.map (bumpBalance ⟨id1, a1⟩) } id2
            = some r2 ∧
          acc2 = bumpBalance ⟨id2, a2⟩ r2 ∧ e = none ∧
          d2 = { d with accounts :=
                  (d.accounts.map (bumpBalance ⟨id1, a1⟩)).map (bumpBalance ⟨id2, a2⟩) } ∧
          calls = [⟨.AddAccountBalance (.tx h) ⟨id1, a1⟩, none⟩,
                   ⟨.AddAccountBalance (.tx h) ⟨id2, a2⟩, none⟩] ∧
          (w.env.checked = true →
            (∀ r ∈ d.accounts, r.ID = id1 → isInt64 (r.Balance + a1)) ∧
            (∀ r ∈ d.accounts.map (bumpBalance ⟨id1, a1⟩), r.ID = id2 →
              isInt64 (r.Balance + a2))))) := by
  unfold addMoney Queries.AddAccountBalance at heq
  rcases hc1 : (New (.tx h)).exec (.AddAccountBalance (New (.tx h)).db ⟨id1, a1⟩) Account.zero
      (addAccountBalanceStmt ⟨id1, a1⟩) w with ⟨⟨x1, e1⟩, w1⟩
  obtain ⟨d1, env1, hw1, hcase1⟩ := exec_tx_inv htx hc1
  rw [hc1] at heq
  rcases hcase1 with ⟨he1, hs1⟩ | ⟨he1, hx1, hd1, henv1⟩
  · subst he1
    obtain ⟨r1, hr1, hx1, hd1, henv1, hrange1⟩ := addAccountBalanceStmt_ok hs1
    simp only at heq
    have htx1 : w1.txs = (h, d1) :: rest := by rw [hw1]
    rcases hc2 : (New (.tx h)).exec (.AddAccountBalance (New (.tx h)).db ⟨id2, a2⟩)
        Account.zero (addAccountBalanceStmt ⟨id2, a2⟩) w1 with ⟨⟨x2, e2⟩, w3⟩
    obtain ⟨d3, env3, hw3, hcase3⟩ := exec_tx_inv htx1 hc2
    rw [hc2] at heq
    simp only [Prod.mk.injEq] at heq
    obtain ⟨⟨ha1, ha2, he⟩, hw⟩ := heq
    subst ha1 ha2 he hw
    have henv1w : w1.env = w.env := by rw [hw1]; exact henv1
    have hfl : w.faults.tail.tail = w.faults.drop 2 := by
      rw [tail_eq_drop_one w.faults, drop_tail_eq_drop_succ]
    rcases hcase3 with ⟨he2, hs2⟩ | ⟨he2, hx2, hd3, henv3⟩
    · subst he2
      obtain ⟨r2, hr2, hx2, hd3, henv3, hrange2⟩ := addAccountBalanceStmt_ok hs2
      refine ⟨d3, _, ?_, Or.inr (Or.inr ⟨r1, r2, hr1, hx1, ?_, hx2, rfl, ?_, rfl, ?_⟩)⟩
      · rw [hw3, hw1]; simp [henv3, henv1w, New, hfl]
      · rw [← hd1]; exact hr2
      · rw [hd3, hd1]
      · intro hck
        refine ⟨hrange1 hck, ?_⟩
        have := hrange2 (by rw [henv1w]; exact hck)
        rw [hd1] at this
        exact this
    · refine ⟨d3, _, ?_, Or.inr (Or.inl ⟨r1, hr1, hx1, he2, hx2, rfl⟩)⟩
      rw [hw3, hw1]; simp [henv3, henv1w, New, hfl]
  · obtain ⟨f, hf⟩ := Option.ne_none_iff_exists'.mp he1
    subst hf
    simp only [Prod.mk.injEq] at heq
    obtain ⟨⟨ha1, ha2, he⟩, hw⟩ := heq
    subst ha1 ha2 he hw
    refine ⟨d1, _, ?_, Or.inl ⟨he1, rfl, hx1, rfl⟩⟩
    rw [hw1]; simp [henv1, New]


/-- The unit of work of `TransferTx` on an open transaction: where it can stop
and what it has written to `result` and to the log by then. -/
theorem transferFn_tx_inv {arg : TransferTxParams} {h : Nat} {r res : TransferTxResult}
    {w w2 : World} {d : DB} {rest : List (Nat × DB)} {e : Option Error}
    (htx : w.txs = (h, d) :: rest)
    (heq : transferFn arg (New (.tx h)) r w = ((res, e), w2)) :
    (e ≠ none ∧ res = { r with Transfer := Transfer.zero } ∧
      w2.log = w.log ++
        [⟨.CreateTransfer (.tx h) ⟨arg.FromAccountID, arg.ToAccountID, arg.Amount⟩, e⟩]) ∨
    (e ≠ none ∧
      res = { r with Transfer := transferRow arg w.env, FromEntry := Entry.zero } ∧
      w2.log = w.log ++
        [⟨.CreateTransfer (.tx h) ⟨arg.FromAccountID, arg.ToAccountID, arg.Amount⟩, none⟩,
         ⟨.CreateEntry (.tx h) ⟨arg.FromAccountID, neg64 arg.Amount⟩, e⟩]) ∨
    (e ≠ none ∧
      res = { r with Transfer := transferRow arg w.env, FromEntry := fromEntryRow arg w.env,
                     ToEntry := Entry.zero } ∧
      w2.log = w.log ++
        [⟨.CreateTransfer (.tx h) ⟨arg.FromAccountID, arg.ToAccountID, arg.Amount⟩, none⟩,
         ⟨.CreateEntry (.tx h) ⟨arg.FromAccountID, neg64 arg.Amount⟩, none⟩,
         ⟨.CreateEntry (.tx h) ⟨arg.ToAccountID, arg.Amount⟩, e⟩]) ∨
    (∃ acc1 acc2,
      d.hasAccount arg.FromAccountID = true ∧ d.hasAccount arg.ToAccountID = true ∧
      addMoney (New (.tx h)) (firstIncrement arg).ID (firstIncrement arg).Amount
          (secondIncrement arg).ID (secondIncrement arg).Amount
          { w with
            txs := (h, { d with transfers := d.transfers ++ [transferRow arg w.env],
                                entries := d.entries ++
                                  [fromEntryRow arg w.env, toEntryRow arg w.env] }) :: rest,
            env := { w.env with transferSeq := w.env.transferSeq + 1,
                                entrySeq := w.env.entrySeq + 1 + 1 },
            faults := w.faults.drop 3,
            log := w.log ++ (insertCalls arg h).map (fun c => ⟨c, none⟩) }
        = ((acc1, acc2, e), w2) ∧
      res = { Transfer := transferRow arg w.env, FromEntry := fromEntryRow arg w.env,
              ToEntry := toEntryRow arg w.env,
              FromAccount := if arg.FromAccountID < arg.ToAccountID then acc1 else acc2,
              ToAccount := if arg.FromAccountID < arg.ToAccountID then acc2 else acc1 }) := by
  unfold transferFn Queries.CreateTransfer Queries.CreateEntry at heq
  rcases hc1 : (New (.tx h)).exec
      (.CreateTransfer (New (.tx h)).db ⟨arg.FromAccountID, arg.ToAccountID, arg.Amount⟩)
      Transfer.zero (createTransferStmt ⟨arg.FromAccountID, arg.ToAccountID, arg.Amount⟩) w
    with ⟨⟨x1, e1⟩, w1⟩
  obtain ⟨d1, env1, hw1, hcase1⟩ := exec_tx_inv htx hc1
  rw [hc1] at heq
  rcases hcase1 with ⟨he1, hs1⟩ | ⟨he1, hx1, -, -⟩
  swap
  · obtain ⟨f, hf⟩ := Option.ne_none_iff_exists'.mp he1
    subst hf
    simp only [Prod.mk.injEq] at heq
    obtain ⟨⟨hres, he⟩, hw⟩ := heq
    subst hres he hw
    refine Or.inl ⟨he1, by rw [hx1], ?_⟩
    rw [hw1]; rfl
  subst he1
  obtain ⟨hx1, hd1, henv1, hfrom, hto⟩ := createTransferStmt_ok hs1
  simp only at heq
  have htx1 : w1.txs = (h, d1) :: rest := by rw [hw1]
  rcases hc2 : (New (.tx h)).exec
      (.CreateEntry (New (.tx h)).db ⟨arg.FromAccountID, neg64 arg.Amount⟩)
      Entry.zero (createEntryStmt ⟨arg.FromAccountID, neg64 arg.Amount⟩) w1
    with ⟨⟨x2, e2⟩, wb⟩
  obtain ⟨d2, env2, hw2, hcase2⟩ := exec_tx_inv htx1 hc2
  rw [hc2] at heq
  rcases hcase2 with ⟨he2, hs2⟩ | ⟨he2, hx2, -, -⟩
  swap
  · obtain ⟨f, hf⟩ := Option.ne_none_iff_exists'.mp he2
    subst hf
    simp only [Prod.mk.injEq] at heq
    obtain ⟨⟨hres, he⟩, hw⟩ := heq
    subst hres he hw
    refine Or.inr (Or.inl ⟨he2, by rw [hx2, hx1]; rfl, ?_⟩)
    rw [hw2, hw1]; simp [New]
  subst he2
  obtain ⟨hx2, hd2, henv2, -⟩ := createEntryStmt_ok hs2
  simp only at heq
  have htx2 : wb.txs = (h, d2) :: rest := by rw [hw2]
  rcases hc3 : (New (.tx h)).exec
      (.CreateEntry (New (.tx h)).db ⟨arg.ToAccountID, arg.Amount⟩)
      Entry.zero (createEntryStmt ⟨arg.ToAccountID, arg.Amount⟩) wb
    with ⟨⟨x3, e3⟩, w3⟩
  obtain ⟨d3, env3, hw3, hcase3⟩ := exec_tx_inv htx2 hc3
  rw [hc3] at heq
  have henv1w : w1.env = { w.env with transferSeq := w.env.transferSeq + 1 } := by
    rw [hw1]; exact henv1
  have henv2w : wb.env =
      ⟨w.env.transferSeq + 1, w.env.entrySeq + 1, w.env.clock, w.env.checked⟩ := by
    rw [hw2]; simp only; rw [henv2, henv1w]
  have hx2' : x2 = fromEntryRow arg w.env := by rw [hx2, henv1w]; rfl
  rcases hcase3 with ⟨he3, hs3⟩ | ⟨he3, hx3, -, -⟩
  swap
  · obtain ⟨f, hf⟩ := Option.ne_none_iff_exists'.mp he3
    subst hf
    simp only [Prod.mk.injEq] at heq
    obtain ⟨⟨hres, he⟩, hw⟩ := heq
    subst hres he hw
    refine Or.inr (Or.inr (Or.inl ⟨he3, by rw [hx3, hx2', hx1]; rfl, ?_⟩))
    rw [hw3, hw2, hw1]; simp [New]
  subst he3
  obtain ⟨hx3, hd3, henv3, -⟩ := createEntryStmt_ok hs3
  simp only at heq
  have hx3' : x3 = toEntryRow arg w.env := by rw [hx3, henv2w]; rfl
  have hw3' : w3 = { w with
      txs := (h, { d with transfers := d.transfers ++ [transferRow arg w.env],
                          entries := d.entries ++
                            [fromEntryRow arg w.env, toEntryRow arg w.env] }) :: rest,
      env := { w.env with transferSeq := w.env.transferSeq + 1,
                          entrySeq := w.env.entrySeq + 1 + 1 },
      faults := w.faults.drop 3,
      log := w.log ++ (insertCalls arg h).map (fun c => ⟨c, none⟩) } := by
    have hfl : w.faults.tail.tail.tail = w.faults.drop 3 := by
      rw [tail_eq_drop_one w.faults, drop_tail_eq_drop_succ, drop_tail_eq_drop_succ]
    rw [hw3, hd3, henv3, henv2w, hd2, hd1, hw2, hw1, ← hx3', ← hx2', hx1]
    simp [New, insertCalls, transferRow, hfl]
  refine Or.inr (Or.inr (Or.inr ?_))
  by_cases hlt : arg.FromAccountID < arg.ToAccountID
  · simp only [hlt, if_true] at heq
    rcases hm : addMoney (New (.tx h)) arg.FromAccountID (neg64 arg.Amount) arg.ToAccountID
      arg.Amount w3 with ⟨⟨acc1, acc2, em⟩, w4⟩
    rw [hm] at heq
    simp only [Prod.mk.injEq] at heq
    obtain ⟨⟨hres, he⟩, hw⟩ := heq
    subst he hw
    refine ⟨acc1, acc2, hfrom, hto, ?_, ?_⟩
    · rw [← hw3']; simpa [firstIncrement, secondIncrement, hlt] using hm
    · rw [← hres, ← hx3', ← hx2', hx1]; simp [hlt, transferRow]
  · simp only [hlt, if_false] at heq
    rcases hm : addMoney (New (.tx h)) arg.ToAccountID arg.Amount arg.FromAccountID
      (neg64 arg.Amount) w3 with ⟨⟨acc1, acc2, em⟩, w4⟩
    rw [hm] at heq
    simp only [Prod.mk.injEq] at heq
    obtain ⟨⟨hres, he⟩, hw⟩ := heq
    subst he hw
    refine ⟨acc1, acc2, hfrom, hto, ?_, ?_⟩
    · rw [← hw3']; simpa [firstIncrement, secondIncrement, hlt] using hm
    · rw [← hres, ← hx3', ← hx2', hx1]; simp [hlt, transferRow]


/-- The control flow of `execTx`, read off a run. -/
theorem execTx_inv {ρ : Type} {store : Store}
    {fn : Queries → ρ → World → (ρ × Option Error) × World} {r r2 : ρ} {w w2 : World}
    {e : Option Error} (heq : store.execTx fn r w = ((r2, e), w2)) :
    (∃ f, nextFault w.faults = some f ∧ r2 = r ∧ e = some f ∧
      w2 = w.popFault.record .BeginTx (some f)) ∨
    (nextFault w.faults = none ∧
      ∃ e0 wf, fn (New (.tx w.nextTx)) r w.begun = ((r2, e0), wf) ∧
        ((∃ err, e0 = some err ∧ w2 = (Rollback w.nextTx wf).2 ∧
            e = some (match (Rollback w.nextTx wf).1 with
                      | some rbErr => fmtErrorf err rbErr
                      | none => err)) ∨
          (e0 = none ∧ Commit w.nextTx wf = (e, w2)))) := by
  unfold Store.execTx BeginTx at heq
  cases hf : nextFault w.faults with
  | some f =>
    simp only [hf, Prod.mk.injEq] at heq
    obtain ⟨⟨hr, he⟩, hw⟩ := heq
    exact Or.inl ⟨f, rfl, hr.symm, he.symm, hw.symm⟩
  | none =>
    simp only [hf] at heq
    refine Or.inr ⟨rfl, ?_⟩
    rcases hfn : fn (New (.tx w.nextTx)) r w.begun with ⟨⟨r3, e0⟩, wf⟩
    have hfn2 := hfn
    unfold World.begun at hfn2
    rw [hfn2] at heq
    refine ⟨e0, wf, ?_, ?_⟩
    · cases e0 with
      | some err =>
        rcases hrb : Rollback w.nextTx wf with ⟨rb, w3⟩
        simp only [hrb] at heq
        cases rb <;> simp only [Prod.mk.injEq] at heq <;> rw [heq.1.1]
      | none =>
        simp only [Prod.mk.injEq] at heq
        rw [heq.1.1]
    · cases e0 with
      | some err =>
        rcases hrb : Rollback w.nextTx wf with ⟨rb, w3⟩
        simp only [hrb] at heq
        refine Or.inl ⟨err, rfl, ?_, ?_⟩
        · cases rb <;> simp only [Prod.mk.injEq] at heq <;> exact heq.2.symm
        · cases rb <;> simp only [Prod.mk.injEq] at heq <;> exact heq.1.2.symm
      | none =>
        simp only [Prod.mk.injEq] at heq
        refine Or.inr ⟨rfl, ?_⟩
        rw [← heq.1.2, ← heq.2]

theorem Commit_log (h : Nat) (w : World) :
    (Commit h w).2.log = w.log ++ [⟨.Commit h, (Commit h w).1⟩] := by
  unfold Commit
  cases txLookup h w.txs with
  | none => rfl
  | some d => cases nextFault w.faults <;> rfl

theorem Rollback_log (h : Nat) (w : World) :
    (Rollback h w).2.log = w.log ++ [⟨.Rollback h, (Rollback h w).1⟩] := by
  unfold Rollback
  cases txLookup h w.txs with
  | none => rfl
  | some d => cases nextFault w.faults <;> rfl

/-- A commit that reports no error publishes the working copy and closes the
handle. -/
theorem Commit_ok_inv {h : Nat} {w w2 : World} {d : DB} {rest : List (Nat × DB)}
    (htx : w.txs = (h, d) :: rest) (heq : Commit h w = (none, w2)) :
    w2.db = d ∧ w2.txs = rest ∧ w2.env = w.env ∧ w2.nextTx = w.nextTx := by
  unfold Commit at heq
  simp only [htx, txLookup_head, txDrop_head] at heq
  cases hf : nextFault w.faults with
  | some f => simp [hf] at heq
  | none =>
    simp only [hf, Prod.mk.injEq, true_and] at heq
    rw [← heq]
    exact ⟨rfl, rfl, rfl, rfl⟩

/-- A successful `TransferTx`: the rows in its result and the committed tables
it leaves. -/
theorem TransferTx_ok_inv {store : Store} {arg : TransferTxParams} {w w2 : World}
    {res : TransferTxResult} (hok : store.TransferTx arg w = ((res, none), w2)) :
    ∃ r1 r2,
      w.db.getAccount (firstIncrement arg).ID = some r1 ∧
      DB.getAccount
          { w.db with accounts := w.db.accounts.map (bumpBalance (firstIncrement arg)) }
          (secondIncrement arg).ID = some r2 ∧
      res = { Transfer := transferRow arg w.env, FromEntry := fromEntryRow arg w.env,
              ToEntry := toEntryRow arg w.env,
              FromAccount := if arg.FromAccountID < arg.ToAccountID
                then bumpBalance (firstIncrement arg) r1
                else bumpBalance (secondIncrement arg) r2,
              ToAccount := if arg.FromAccountID < arg.ToAccountID
                then bumpBalance (secondIncrement arg) r2
                else bumpBalance (firstIncrement arg) r1 } ∧
      w2.db = { accounts := (w.db.accounts.map (bumpBalance (firstIncrement arg))).map
                  (bumpBalance (secondIncrement arg)),
                entries := w.db.entries ++ [fromEntryRow arg w.env, toEntryRow arg w.env],
                transfers := w.db.transfers ++ [transferRow arg w.env] } ∧
      w2.txs = w.txs ∧
      (w.env.checked = true →
        (∀ r ∈ w.db.accounts, r.ID = (firstIncrement arg).ID →
          isInt64 (r.Balance + (firstIncrement arg).Amount)) ∧
        (∀ r ∈ w.db.accounts.map (bumpBalance (firstIncrement arg)),
          r.ID = (secondIncrement arg).ID →
          isInt64 (r.Balance + (secondIncrement arg).Amount))) := by
  unfold Store.TransferTx at hok
  rcases execTx_inv hok with ⟨f, -, -, he, -⟩ | ⟨-, e0, wf, hfn, hcase⟩
  · cases he
  rcases hcase with ⟨err, -, -, he⟩ | ⟨he0, hcommit⟩
  · cases he
  subst he0
  have htx : w.begun.txs = (w.nextTx, w.db) :: w.txs := rfl
  rcases transferFn_tx_inv htx hfn with ⟨hne, -⟩ | ⟨hne, -⟩ | ⟨hne, -⟩ |
    ⟨acc1, acc2, -, -, hmoney, hres⟩
  · exact absurd rfl hne
  · exact absurd rfl hne
  · exact absurd rfl hne
  rcases addMoney_tx_inv rfl hmoney with ⟨d2, calls, hwf, hc⟩
  rcases hc with ⟨hne, -⟩ | ⟨r1, -, -, hne, -⟩ |
    ⟨r1, r2, hr1, ha1, hr2, ha2, -, hd2, -, hrange⟩
  · exact absurd rfl hne
  · exact absurd rfl hne
  have hwftx : wf.txs = (w.nextTx, d2) :: w.txs := by rw [hwf]
  obtain ⟨hdb, htxs, -, -⟩ := Commit_ok_inv hwftx hcommit
  refine ⟨r1, r2, hr1, hr2, ?_, ?_, htxs, hrange⟩
  · subst hres ha1 ha2
    rfl
  · rw [hdb, hd2]
    rfl

/-! ## int64 arithmetic -/

theorem wrap64_of_isInt64 {x : Int} (h : isInt64 x) : wrap64 x = x := by
  unfold isInt64 at h
  unfold wrap64
  omega

theorem wrap64_congr {a b : Int} (k : Int) (h : a = b + 18446744073709551616 * k) :
    wrap64 a = wrap64 b := by
  unfold wrap64
  omega

theorem wrap64_spec (x : Int) : ∃ k : Int, wrap64 x = x + 18446744073709551616 * k := by
  refine ⟨-((x + 9223372036854775808) / 18446744073709551616), ?_⟩
  unfold wrap64
  omega

theorem wrap64_add_wrap64 (a b : Int) : wrap64 (a + wrap64 b) = wrap64 (a + b) := by
  obtain ⟨k, hk⟩ := wrap64_spec b
  exact wrap64_congr k (by rw [hk]; ring)

theorem wrap64_wrap64_add (a b : Int) : wrap64 (wrap64 a + b) = wrap64 (a + b) := by
  obtain ⟨k, hk⟩ := wrap64_spec a
  exact wrap64_congr k (by rw [hk]; ring)

theorem wrap64_add_neg64 (a b : Int) : wrap64 (a + neg64 b) = sub64 a b := by
  unfold neg64 sub64
  rw [wrap64_add_wrap64]
  congr 1

theorem sub64_sub64_self (a b : Int) : sub64 a (sub64 a b) = wrap64 b := by
  unfold sub64
  obtain ⟨k, hk⟩ := wrap64_spec (a - b)
  exact wrap64_congr (-k) (by rw [hk]; ring)

theorem sub64_wrap64_add_self (a b : Int) : sub64 (wrap64 (a + b)) a = wrap64 b := by
  unfold sub64
  obtain ⟨k, hk⟩ := wrap64_spec (a + b)
  exact wrap64_congr k (by rw [hk]; ring)

theorem neg64_neg64 (a : Int) : neg64 (neg64 a) = wrap64 a := by
  unfold neg64
  obtain ⟨k, hk⟩ := wrap64_spec (-a)
  exact wrap64_congr (-k) (by rw [hk]; ring)

/-! ## Looking accounts up -/

theorem bumpBalance_ID (p : AddAccountBalanceParams) (a : Account) :
    (bumpBalance p a).ID = a.ID := by
  unfold bumpBalance
  split <;> rfl

theorem bumpBalance_of_ne {p : AddAccountBalanceParams} {a : Account} (h : a.ID ≠ p.ID) :
    bumpBalance p a = a := by
  unfold bumpBalance
  rw [if_neg h]

theorem bumpBalance_Balance_of_eq {p : AddAccountBalanceParams} {a : Account}
    (h : a.ID = p.ID) : (bumpBalance p a).Balance = wrap64 (a.Balance + p.Amount) := by
  unfold bumpBalance
  rw [if_pos h]

theorem getAccount_ID {d : DB} {id : Int} {a : Account} (h : d.getAccount id = some a) :
    a.ID = id := by
  unfold DB.getAccount at h
  simpa using List.find?_some h

theorem find_map_bumpBalance (p : AddAccountBalanceParams) (id : Int) (l : List Account) :
    (l.map (bumpBalance p)).find? (fun a => decide (a.ID = id)) =
      (l.find? (fun a => decide (a.ID = id))).map (bumpBalance p) := by
  induction l with
  | nil => rfl
  | cons a l ih =>
    simp only [List.map_cons, List.find?_cons, bumpBalance_ID]
    by_cases h : a.ID = id
    · simp [h]
    · simp [h, ih]

theorem getAccount_map_bumpBalance (p : AddAccountBalanceParams) (id : Int) (d : DB) :
    DB.getAccount { d with accounts := d.accounts.map (bumpBalance p) } id =
      (d.getAccount id).map (bumpBalance p) := by
  unfold DB.getAccount
  exact find_map_bumpBalance p id d.accounts

/-! ## What a successful transfer returns -/

/-- C2. Post-increment snapshots of `TransferTx`: for distinct existing
accounts `from` and `to` (whichever id is smaller) with pre-call balances `bf`
and `bt`, and every `int64` amount, a successful `TransferTx` returns
`FromAccount` with id `from` and balance `bf - amount`, and `ToAccount` with id
`to` and balance `bt + amount`, so that `bf - FromAccount.Balance`, and
`ToAccount.Balance - bt`, equal `amount`.  The arithmetic is Go's on `int64`;
whenever `bf - amount` and `bt + amount` are representable the balances are
these integers themselves. -/
theorem TransferTx_snapshots (store : Store) (arg : TransferTxParams) (w w2 : World)
    (res : TransferTxResult) (af at_ : Account)
    (hne : arg.FromAccountID ≠ arg.ToAccountID) (hamt : isInt64 arg.Amount)
    (hfrom : w.db.getAccount arg.FromAccountID = some af)
    (hto : w.db.getAccount arg.ToAccountID = some at_)
    (hok : store.TransferTx arg w = ((res, none), w2)) :
    res.FromAccount.ID = arg.FromAccountID ∧
    res.FromAccount.Balance = sub64 af.Balance arg.Amount ∧
    res.ToAccount.ID = arg.ToAccountID ∧
    res.ToAccount.Balance = wrap64 (at_.Balance + arg.Amount) ∧
    sub64 af.Balance res.FromAccount.Balance = arg.Amount ∧
    sub64 res.ToAccount.Balance at_.Balance = arg.Amount ∧
    (isInt64 (af.Balance - arg.Amount) → res.FromAccount.Balance = af.Balance - arg.Amount) ∧
    (isInt64 (at_.Balance + arg.Amount) → res.ToAccount.Balance = at_.Balance + arg.Amount) := by
  obtain ⟨r1, r2, hr1, hr2, hres, -, -⟩ := TransferTx_ok_inv hok
  rw [getAccount_map_bumpBalance] at hr2
  have hfid := getAccount_ID hfrom
  have htid := getAccount_ID hto
  have key : res.FromAccount.ID = arg.FromAccountID ∧
      res.FromAccount.Balance = sub64 af.Balance arg.Amount ∧
      res.ToAccount.ID = arg.ToAccountID ∧
      res.ToAccount.Balance = wrap64 (at_.Balance + arg.Amount) := by
    by_cases hlt : arg.FromAccountID < arg.ToAccountID
    · simp only [firstIncrement, secondIncrement, hlt, if_true] at hr1 hr2 hres
      rw [hfrom] at hr1
      rw [hto] at hr2
      simp only [Option.some.injEq, Option.map_some'] at hr1 hr2
      have h2 : bumpBalance ⟨arg.FromAccountID, neg64 arg.Amount⟩ at_ = at_ :=
        bumpBalance_of_ne (by rw [htid]; exact fun h => hne h.symm)
      rw [h2] at hr2
      subst hr1 hr2 hres
      refine ⟨?_, ?_, ?_, ?_⟩
      · simp only [bumpBalance_ID, hfid]
      · rw [bumpBalance_Balance_of_eq hfid]; exact wrap64_add_neg64 _ _
      · simp only [bumpBalance_ID, htid]
      · rw [bumpBalance_Balance_of_eq htid]
    · simp only [firstIncrement, secondIncrement, hlt, if_false] at hr1 hr2 hres
      rw [hto] at hr1
      rw [hfrom] at hr2
      simp only [Option.some.injEq, Option.map_some'] at hr1 hr2
      have h2 : bumpBalance ⟨arg.ToAccountID, arg.Amount⟩ af = af :=
        bumpBalance_of_ne (by rw [hfid]; exact hne)
      rw [h2] at hr2
      subst hr1 hr2 hres
      refine ⟨?_, ?_, ?_, ?_⟩
      · simp only [bumpBalance_ID, hfid]
      · rw [bumpBalance_Balance_of_eq hfid]; exact wrap64_add_neg64 _ _
      · simp only [bumpBalance_ID, htid]
      · rw [bumpBalance_Balance_of_eq htid]
  obtain ⟨k1, k2, k3, k4⟩ := key
  refine ⟨k1, k2, k3, k4, ?_, ?_, ?_, ?_⟩
  · rw [k2, sub64_sub64_self, wrap64_of_isInt64 hamt]
  · rw [k4, sub64_wrap64_add_self, wrap64_of_isInt64 hamt]
  · intro h; rw [k2]; exact wrap64_of_isInt64 h
  · intro h; rw [k4]; exact wrap64_of_isInt64 h

theorem TransferTx_snapshots_witness :
    (NewStore.TransferTx ⟨1, 2, 100⟩ scenarioWorld).1.1.FromAccount.ID = 1 ∧
    (NewStore.TransferTx ⟨1, 2, 100⟩ scenarioWorld).1.1.FromAccount.Balance = 900 ∧
    (NewStore.TransferTx ⟨1, 2, 100⟩ scenarioWorld).1.1.ToAccount.ID = 2 ∧
    (NewStore.TransferTx ⟨1, 2, 100⟩ scenarioWorld).1.1.ToAccount.Balance = 600 := by
  have h := TransferTx_snapshots NewStore ⟨1, 2, 100⟩ scenarioWorld
    (NewStore.TransferTx ⟨1, 2, 100⟩ scenarioWorld).2
    (NewStore.TransferTx ⟨1, 2, 100⟩ scenarioWorld).1.1
    ⟨1, "ann", 1000, "USD", 0⟩ ⟨2, "bob", 500, "USD", 0⟩
    (by decide) (by decide) (by decide) (by decide) (by decide)
  exact ⟨h.1, (h.2.2.2.2.2.2.1 (by decide)), h.2.2.1, (h.2.2.2.2.2.2.2 (by decide))⟩

/-- C3. Balancing of `TransferTx`: for every successful transfer `(from, to,
amount)` the Transfer of the result carries `from`, `to` and `amount`, the
FromEntry carries `from` and `-amount`, the ToEntry carries `to` and `amount`,
and `ToEntry.Amount == -FromEntry.Amount`, the negations being Go's on
`int64`. -/
theorem TransferTx_balancing (store : Store) (arg : TransferTxParams) (w w2 : World)
    (res : TransferTxResult) (hamt : isInt64 arg.Amount)
    (hok : store.TransferTx arg w = ((res, none), w2)) :
    res.Transfer.FromAccountID = arg.FromAccountID ∧
    res.Transfer.ToAccountID = arg.ToAccountID ∧
    res.Transfer.Amount = arg.Amount ∧
    res.FromEntry.AccountID = arg.FromAccountID ∧
    res.FromEntry.Amount = neg64 arg.Amount ∧
    res.ToEntry.AccountID = arg.ToAccountID ∧
    res.ToEntry.Amount = arg.Amount ∧
    res.ToEntry.Amount = neg64 res.FromEntry.Amount := by
  obtain ⟨r1, r2, -, -, hres, -, -⟩ := TransferTx_ok_inv hok
  subst hres
  refine ⟨rfl, rfl, rfl, rfl, rfl, rfl, rfl, ?_⟩
  show arg.Amount = neg64 (neg64 arg.Amount)
  rw [neg64_neg64, wrap64_of_isInt64 hamt]

theorem TransferTx_balancing_witness :
    (NewStore.TransferTx ⟨1, 2, 100⟩ scenarioWorld).1.1.Transfer.Amount = 100 ∧
    (NewStore.TransferTx ⟨1, 2, 100⟩ scenarioWorld).1.1.FromEntry.Amount = -100 ∧
    (NewStore.TransferTx ⟨1, 2, 100⟩ scenarioWorld).1.1.ToEntry.Amount = 100 := by
  have h := TransferTx_balancing NewStore ⟨1, 2, 100⟩ scenarioWorld
    (NewStore.TransferTx ⟨1, 2, 100⟩ scenarioWorld).2
    (NewStore.TransferTx ⟨1, 2, 100⟩ scenarioWorld).1.1 (by decide) (by decide)
  exact ⟨h.2.2.1, h.2.2.2.2.1, h.2.2.2.2.2.2.1⟩

/-! ## Conservation -/

theorem isInt64_wrap64 (x : Int) : isInt64 (wrap64 x) := by
  unfold isInt64 wrap64
  omega

theorem bumpBalance_isInt64 (p : AddAccountBalanceParams) {a : Account}
    (h : isInt64 a.Balance) : isInt64 (bumpBalance p a).Balance := by
  unfold bumpBalance
  split
  · exact isInt64_wrap64 _
  · exact h

theorem wrap64_bumpBalance (p : AddAccountBalanceParams) (a : Account) :
    wrap64 (bumpBalance p a).Balance =
      wrap64 (a.Balance + (if a.ID = p.ID then p.Amount else 0)) := by
  unfold bumpBalance
  split
  · next h =>
    obtain ⟨k, hk⟩ := wrap64_spec (a.Balance + p.Amount)
    exact wrap64_congr k (by simp only; rw [hk])
  · simp

theorem wrap64_bumpBalance_add (p : AddAccountBalanceParams) (a : Account) (c : Int) :
    wrap64 ((bumpBalance p a).Balance + c) =
      wrap64 (a.Balance + (if a.ID = p.ID then p.Amount else 0) + c) := by
  rw [← wrap64_wrap64_add, wrap64_bumpBalance, wrap64_wrap64_add]

theorem increments_signedAmount (arg : TransferTxParams) (id : Int) :
    ∃ k : Int,
      (if id = (firstIncrement arg).ID then (firstIncrement arg).Amount else 0) +
        (if id = (secondIncrement arg).ID then (secondIncrement arg).Amount else 0) =
      signedAmount id arg + 18446744073709551616 * k := by
  obtain ⟨k, hk⟩ := wrap64_spec (-arg.Amount)
  have e1 : arg.FromAccountID = id ↔ id = arg.FromAccountID := eq_comm
  have e2 : arg.ToAccountID = id ↔ id = arg.ToAccountID := eq_comm
  unfold firstIncrement secondIncrement signedAmount neg64
  simp only [e1, e2]
  generalize wrap64 (-arg.Amount) = n at hk
  by_cases hlt : arg.FromAccountID < arg.ToAccountID <;> simp only [hlt, if_true, if_false] <;>
    split_ifs <;> first | exact ⟨k, by omega⟩ | exact ⟨0, by omega⟩

/-- One committed transfer moves the balance of every account by the signed
amount of the transfer, in `int64`. -/
theorem TransferTx_ok_balance {store : Store} {arg : TransferTxParams} {w w2 : World}
    {res : TransferTxResult} (hok : store.TransferTx arg w = ((res, none), w2))
    {id : Int} {a : Account} (ha : w.db.getAccount id = some a) :
    ∃ a2, w2.db.getAccount id = some a2 ∧ (isInt64 a.Balance → isInt64 a2.Balance) ∧
      wrap64 a2.Balance = wrap64 (a.Balance + signedAmount id arg) := by
  obtain ⟨r1, r2, -, -, -, hdb, -⟩ := TransferTx_ok_inv hok
  have hid := getAccount_ID ha
  refine ⟨bumpBalance (secondIncrement arg) (bumpBalance (firstIncrement arg) a), ?_, ?_, ?_⟩
  · rw [hdb]
    unfold DB.getAccount at ha ⊢
    simp only [find_map_bumpBalance, ha, Option.map_some']
  · intro h
    exact bumpBalance_isInt64 _ (bumpBalance_isInt64 _ h)
  · rw [wrap64_bumpBalance, wrap64_bumpBalance_add]
    obtain ⟨k, hk⟩ := increments_signedAmount arg id
    refine wrap64_congr k ?_
    rw [bumpBalance_ID, hid, add_assoc, hk]
    ring

theorem runTransfers_balance (store : Store) :
    ∀ (ps : List TransferTxParams) (w w2 : World), runTransfers store ps w = some w2 →
      ∀ (id : Int) (a : Account), w.db.getAccount id = some a →
        ∃ a2, w2.db.getAccount id = some a2 ∧ (isInt64 a.Balance → isInt64 a2.Balance) ∧
          wrap64 a2.Balance = wrap64 (a.Balance + netAmount id ps) := by
  intro ps
  induction ps with
  | nil =>
    intro w w2 hrun id a ha
    simp only [runTransfers, Option.some.injEq] at hrun
    subst hrun
    exact ⟨a, ha, fun h => h, by simp [netAmount]⟩
  | cons p ps ih =>
    intro w w2 hrun id a ha
    rcases hstep : store.TransferTx p w with ⟨⟨res, e⟩, w1⟩
    cases e with
    | some err => simp [runTransfers, hstep] at hrun
    | none =>
      simp only [runTransfers, hstep] at hrun
      obtain ⟨a1, ha1, hr1, hb1⟩ := TransferTx_ok_balance hstep ha
      obtain ⟨a2, ha2, hr2, hb2⟩ := ih w1 w2 hrun id a1 ha1
      refine ⟨a2, ha2, fun h => hr2 (hr1 h), ?_⟩
      rw [hb2, ← wrap64_wrap64_add, hb1, wrap64_wrap64_add]
      congr 1
      simp only [netAmount, List.map_cons, List.sum_cons]
      ring

theorem netAmount_replicate_from {a b : Int} (amount : Int) (n : Nat) (h : a ≠ b) :
    netAmount a (List.replicate n ⟨a, b, amount⟩) = -(n * amount) := by
  induction n with
  | zero => simp [netAmount]
  | succ n ih =>
    unfold netAmount at ih ⊢
    rw [List.replicate_succ, List.map_cons, List.sum_cons, ih]
    simp only [signedAmount, if_true, if_neg (Ne.symm h)]
    push_cast
    ring

theorem netAmount_replicate_to {a b : Int} (amount : Int) (n : Nat) (h : a ≠ b) :
    netAmount b (List.replicate n ⟨a, b, amount⟩) = n * amount := by
  induction n with
  | zero => simp [netAmount]
  | succ n ih =>
    unfold netAmount at ih ⊢
    rw [List.replicate_succ, List.map_cons, List.sum_cons, ih]
    simp only [signedAmount, if_true, if_neg h]
    push_cast
    ring

theorem netAmount_alternating_even (id a b amount : Int) (m : Nat) :
    netAmount id (alternating a b amount (m + m)) = 0 := by
  induction m with
  | zero => simp [netAmount, alternating]
  | succ m ih =>
    have e : m + 1 + (m + 1) = (m + m) + 1 + 1 := by omega
    rw [e]
    unfold netAmount at ih ⊢
    simp only [alternating, List.map_cons, List.sum_cons, ih, signedAmount]
    split_ifs <;> ring

/-- C4. Conservation over committed transfers: after any finite sequence of
committed `TransferTx` calls the balance of each account is its starting
balance plus the sum, over the transfers, of `-amount` when it is the source
and `+amount` when it is the destination (in `int64`, and as plain integers
whenever that sum is representable).  In particular `n` transfers of one
amount from `a` to `b` leave `a` at its balance minus `n * amount` and `b` at
its balance plus `n * amount`, and an even number of equal transfers
alternating `a -> b`, `b -> a` leaves both balances as they started. -/
theorem TransferTx_conservation (store : Store) :
    (∀ (ps : List TransferTxParams) (w w2 : World) (id : Int) (r : Account),
      runTransfers store ps w = some w2 → w.db.getAccount id = some r → isInt64 r.Balance →
      ∃ r2, w2.db.getAccount id = some r2 ∧
        r2.Balance = wrap64 (r.Balance + netAmount id ps) ∧
        (isInt64 (r.Balance + netAmount id ps) → r2.Balance = r.Balance + netAmount id ps)) ∧
    (∀ (n : Nat) (a b amount : Int) (w w2 : World) (ra rb : Account), a ≠ b →
      runTransfers store (List.replicate n ⟨a, b, amount⟩) w = some w2 →
      w.db.getAccount a = some ra → w.db.getAccount b = some rb →
      isInt64 ra.Balance → isInt64 rb.Balance →
      ∃ ra2 rb2, w2.db.getAccount a = some ra2 ∧ w2.db.getAccount b = some rb2 ∧
        ra2.Balance = wrap64 (ra.Balance - n * amount) ∧
        rb2.Balance = wrap64 (rb.Balance + n * amount)) ∧
    (∀ (n : Nat) (a b amount : Int) (w w2 : World) (ra rb : Account), Even n →
      runTransfers store (alternating a b amount n) w = some w2 →
      w.db.getAccount a = some ra → w.db.getAccount b = some rb →
      isInt64 ra.Balance → isInt64 rb.Balance →
      ∃ ra2 rb2, w2.db.getAccount a = some ra2 ∧ w2.db.getAccount b = some rb2 ∧
        ra2.Balance = ra.Balance ∧ rb2.Balance = rb.Balance) := by
  have main : ∀ (ps : List TransferTxParams) (w w2 : World) (id : Int) (r : Account),
      runTransfers store ps w = some w2 → w.db.getAccount id = some r → isInt64 r.Balance →
      ∃ r2, w2.db.getAccount id = some r2 ∧
        r2.Balance = wrap64 (r.Balance + netAmount id ps) := by
    intro ps w w2 id r hrun hr hrange
    obtain ⟨r2, hr2, hrange2, hb⟩ := runTransfers_balance store ps w w2 hrun id r hr
    exact ⟨r2, hr2, by rw [← hb, wrap64_of_isInt64 (hrange2 hrange)]⟩
  refine ⟨?_, ?_, ?_⟩
  · intro ps w w2 id r hrun hr hrange
    obtain ⟨r2, hr2, hb⟩ := main ps w w2 id r hrun hr hrange
    exact ⟨r2, hr2, hb, fun h => by rw [hb, wrap64_of_isInt64 h]⟩
  · intro n a b amount w w2 ra rb hne hrun ha hb hra hrb
    obtain ⟨ra2, hra2, hba⟩ := main _ w w2 a ra hrun ha hra
    obtain ⟨rb2, hrb2, hbb⟩ := main _ w w2 b rb hrun hb hrb
    refine ⟨ra2, rb2, hra2, hrb2, ?_, ?_⟩
    · rw [hba, netAmount_replicate_from amount n hne]; congr 1
    · rw [hbb, netAmount_replicate_to amount n hne]
  · intro n a b amount w w2 ra rb heven hrun ha hb hra hrb
    obtain ⟨m, hm⟩ := heven
    subst hm
    obtain ⟨ra2, hra2, hba⟩ := main _ w w2 a ra hrun ha hra
    obtain ⟨rb2, hrb2, hbb⟩ := main _ w w2 b rb hrun hb hrb
    refine ⟨ra2, rb2, hra2, hrb2, ?_, ?_⟩
    · rw [hba, netAmount_alternating_even, add_zero, wrap64_of_isInt64 hra]
    · rw [hbb, netAmount_alternating_even, add_zero, wrap64_of_isInt64 hrb]

theorem TransferTx_conservation_witness :
    (∃ r2, (NewStore.TransferTx ⟨2, 1, 30⟩
          (NewStore.TransferTx ⟨1, 2, 100⟩ scenarioWorld).2).2.db.getAccount 1 = some r2 ∧
        r2.Balance = 930) ∧
    (∃ ra2 rb2,
        (NewStore.TransferTx ⟨1, 2, 100⟩
          (NewStore.TransferTx ⟨1, 2, 100⟩ scenarioWorld).2).2.db.getAccount 1 = some ra2 ∧
        (NewStore.TransferTx ⟨1, 2, 100⟩
          (NewStore.TransferTx ⟨1, 2, 100⟩ scenarioWorld).2).2.db.getAccount 2 = some rb2 ∧
        ra2.Balance = 800 ∧ rb2.Balance = 700) ∧
    (∃ ra2 rb2,
        (NewStore.TransferTx ⟨2, 1, 100⟩
          (NewStore.TransferTx ⟨1, 2, 100⟩ scenarioWorld).2).2.db.getAccount 1 = some ra2 ∧
        (NewStore.TransferTx ⟨2, 1, 100⟩
          (NewStore.TransferTx ⟨1, 2, 100⟩ scenarioWorld).2).2.db.getAccount 2 = some rb2 ∧
        ra2.Balance = 1000 ∧ rb2.Balance = 500) := by
  refine ⟨?_, ?_, ?_⟩
  · obtain ⟨r2, h1, -, h3⟩ := (TransferTx_conservation NewStore).1
      [⟨1, 2, 100⟩, ⟨2, 1, 30⟩] scenarioWorld
      (NewStore.TransferTx ⟨2, 1, 30⟩ (NewStore.TransferTx ⟨1, 2, 100⟩ scenarioWorld).2).2
      1 ⟨1, "ann", 1000, "USD", 0⟩ (by decide) (by decide) (by decide)
    exact ⟨r2, h1, h3 (by decide)⟩
  · obtain ⟨ra2, rb2, h1, h2, h3, h4⟩ := (TransferTx_conservation NewStore).2.1
      2 1 2 100 scenarioWorld
      (NewStore.TransferTx ⟨1, 2, 100⟩ (NewStore.TransferTx ⟨1, 2, 100⟩ scenarioWorld).2).2
      ⟨1, "ann", 1000, "USD", 0⟩ ⟨2, "bob", 500, "USD", 0⟩
      (by decide) (by decide) (by decide) (by decide) (by decide) (by decide)
    exact ⟨ra2, rb2, h1, h2, h3, h4⟩
  · exact (TransferTx_conservation NewStore).2.2
      2 1 2 100 scenarioWorld
      (NewStore.TransferTx ⟨2, 1, 100⟩ (NewStore.TransferTx ⟨1, 2, 100⟩ scenarioWorld).2).2
      ⟨1, "ann", 1000, "USD", 0⟩ ⟨2, "bob", 500, "USD", 0⟩
      (by decide) (by decide) (by decide) (by decide) (by decide) (by decide)

/-! ## Every run of `TransferTx` -/

/-- The unit of work of `TransferTx`, started on a fresh `result` in an open
transaction: either it stops at a failing accessor call, or its five calls
succeed. -/
theorem transferFn_tx_cases {arg : TransferTxParams} {h : Nat} {res : TransferTxResult}
    {w w2 : World} {d : DB} {rest : List (Nat × DB)} {e : Option Error}
    (htx : w.txs = (h, d) :: rest)
    (heq : transferFn arg (New (.tx h)) TransferTxResult.zero w = ((res, e), w2)) :
    (∃ f calls, e = some f ∧ w2.log = w.log ++ calls ∧ FailedRun arg w.env d h f calls res) ∨
    (e = none ∧
      w2.log = w.log ++ okEntries (insertCalls arg h ++
        [.AddAccountBalance (.tx h) (firstIncrement arg),
         .AddAccountBalance (.tx h) (secondIncrement arg)]) ∧
      ∃ r1 r2, d.getAccount (firstIncrement arg).ID = some r1 ∧
        DB.getAccount { d with accounts := d.accounts.map (bumpBalance (firstIncrement arg)) }
          (secondIncrement arg).ID = some r2 ∧
        res = fullResult arg w.env r1 r2) := by
  rcases transferFn_tx_inv htx heq with ⟨hne, hres, hlog⟩ | ⟨hne, hres, hlog⟩ |
    ⟨hne, hres, hlog⟩ | ⟨acc1, acc2, -, -, hmoney, hres⟩
  · obtain ⟨f, hf⟩ := Option.ne_none_iff_exists'.mp hne
    subst hf
    exact Or.inl ⟨f, _, rfl, hlog, by rw [hres]; exact FailedRun.createTransfer⟩
  · obtain ⟨f, hf⟩ := Option.ne_none_iff_exists'.mp hne
    subst hf
    exact Or.inl ⟨f, _, rfl, hlog, by rw [hres]; exact FailedRun.fromEntry⟩
  · obtain ⟨f, hf⟩ := Option.ne_none_iff_exists'.mp hne
    subst hf
    exact Or.inl ⟨f, _, rfl, hlog, by rw [hres]; exact FailedRun.toEntry⟩
  · rcases addMoney_tx_inv rfl hmoney with ⟨d2, calls, hwf, hc⟩
    have hlog : w2.log = w.log ++ (okEntries (insertCalls arg h) ++ calls) := by
      rw [hwf]; simp [okEntries]
    rcases hc with ⟨hne, hcalls, ha1, ha2⟩ | ⟨r1, hr1, ha1, hne, ha2, hcalls⟩ |
      ⟨r1, r2, hr1, ha1, hr2, ha2, he, -, hcalls, -⟩
    · obtain ⟨f, hf⟩ := Option.ne_none_iff_exists'.mp hne
      subst hf
      refine Or.inl ⟨f, _, rfl, hlog, ?_⟩
      rw [hres, hcalls, ha1, ha2]
      simpa [TransferTxResult.zero] using
        (FailedRun.firstIncrement : FailedRun arg w.env d h f _ _)
    · obtain ⟨f, hf⟩ := Option.ne_none_iff_exists'.mp hne
      subst hf
      refine Or.inl ⟨f, _, rfl, hlog, ?_⟩
      rw [hres, hcalls, ha1, ha2]
      exact FailedRun.secondIncrement r1 hr1
    · subst he
      refine Or.inr ⟨rfl, ?_, r1, r2, hr1, hr2, ?_⟩
      · rw [hlog, hcalls]; simp [okEntries]
      · rw [hres, ha1, ha2]; rfl

/-- Every run of `TransferTx`: the begin fails, or the unit of work stops at a
failing accessor call and is rolled back, or its five calls succeed and the
commit is attempted. -/
theorem TransferTx_cases {store : Store} {arg : TransferTxParams} {w w2 : World}
    {res : TransferTxResult} {e : Option Error}
    (hout : store.TransferTx arg w = ((res, e), w2)) :
    (∃ f, e = some f ∧ res = TransferTxResult.zero ∧
      w2.log = w.log ++ [⟨.BeginTx, some f⟩]) ∨
    (∃ f calls rb, FailedRun arg w.env w.db w.nextTx f calls res ∧
      w2.log = w.log ++ ⟨.BeginTx, none⟩ :: (calls ++ [⟨.Rollback w.nextTx, rb⟩]) ∧
      e = some (match rb with
                | some rbErr => fmtErrorf f rbErr
                | none => f)) ∨
    (w2.log = w.log ++ ⟨.BeginTx, none⟩ ::
        (okEntries (insertCalls arg w.nextTx ++
          [.AddAccountBalance (.tx w.nextTx) (firstIncrement arg),
           .AddAccountBalance (.tx w.nextTx) (secondIncrement arg)]) ++
        [⟨.Commit w.nextTx, e⟩]) ∧
      ∃ r1 r2, w.db.getAccount (firstIncrement arg).ID = some r1 ∧
        DB.getAccount
          { w.db with accounts := w.db.accounts.map (bumpBalance (firstIncrement arg)) }
          (secondIncrement arg).ID = some r2 ∧
        res = fullResult arg w.env r1 r2) := by
  unfold Store.TransferTx at hout
  rcases execTx_inv hout with ⟨f, -, hr, he, hw⟩ | ⟨-, e0, wf, hfn, hcase⟩
  · refine Or.inl ⟨f, he, hr, ?_⟩
    rw [hw]; rfl
  have htx : w.begun.txs = (w.nextTx, w.db) :: w.txs := rfl
  have hbl : w.begun.log = w.log ++ [⟨.BeginTx, none⟩] := rfl
  rcases transferFn_tx_cases htx hfn with ⟨f, calls, he0, hlog, hrun⟩ |
    ⟨he0, hlog, r1, r2, hr1, hr2, hres⟩
  · subst he0
    rcases hcase with ⟨err, herr, hw2, he⟩ | ⟨hno, -⟩
    swap
    · cases hno
    simp only [Option.some.injEq] at herr
    subst herr
    refine Or.inr (Or.inl ⟨f, calls, (Rollback w.nextTx wf).1, hrun, ?_, he⟩)
    rw [hw2, Rollback_log, hlog, hbl]
    simp
  · subst he0
    rcases hcase with ⟨err, herr, -, -⟩ | ⟨-, hcommit⟩
    · cases herr
    refine Or.inr (Or.inr ⟨?_, r1, r2, hr1, hr2, hres⟩)
    have hcl := Commit_log w.nextTx wf
    rw [hcommit] at hcl
    rw [hcl, hlog, hbl]
    simp

/-! ## The order of the balance increments -/

theorem firstIncrement_eq (arg : TransferTxParams) :
    firstIncrement arg =
      ⟨min arg.FromAccountID arg.ToAccountID,
        if arg.FromAccountID < arg.ToAccountID then neg64 arg.Amount else arg.Amount⟩ := by
  unfold firstIncrement
  split_ifs with h
  · rw [min_eq_left (le_of_lt h)]
  · rw [min_eq_right (not_lt.mp h)]

theorem secondIncrement_eq (arg : TransferTxParams) :
    secondIncrement arg =
      ⟨max arg.FromAccountID arg.ToAccountID,
        if arg.FromAccountID < arg.ToAccountID then arg.Amount else neg64 arg.Amount⟩ := by
  unfold secondIncrement
  split_ifs with h
  · rw [max_eq_right (le_of_lt h)]
  · rw [max_eq_left (not_lt.mp h)]

/-- C5. Lock-ordering rule of `TransferTx`: whenever the begin and the three
inserts of a `TransferTx` succeed, the calls it issues are, in this order, the
transfer insert, the entry insert for `from` with `-amount`, the entry insert
for `to` with `+amount`, then the balance increment of the account with id
`min(from, to)` and, when that one succeeds, the balance increment of the
account with id `max(from, to)`, and nothing else but the closing commit or
rollback.  The increment of the source carries `-amount` and that of the
destination `+amount`, whichever comes first. -/
theorem TransferTx_lock_order (store : Store) (arg : TransferTxParams) (w : World)
    (c1 c2 c3 : Call) (rest : List LogEntry)
    (hlog : (store.TransferTx arg w).2.log =
      w.log ++ ⟨.BeginTx, none⟩ :: ⟨c1, none⟩ :: ⟨c2, none⟩ :: ⟨c3, none⟩ :: rest) :
    ∃ h : Nat,
      c1 = .CreateTransfer (.tx h) ⟨arg.FromAccountID, arg.ToAccountID, arg.Amount⟩ ∧
      c2 = .CreateEntry (.tx h) ⟨arg.FromAccountID, neg64 arg.Amount⟩ ∧
      c3 = .CreateEntry (.tx h) ⟨arg.ToAccountID, arg.Amount⟩ ∧
      ∃ e1 tail,
        rest = ⟨.AddAccountBalance (.tx h)
                  ⟨min arg.FromAccountID arg.ToAccountID,
                    if arg.FromAccountID < arg.ToAccountID then neg64 arg.Amount
                    else arg.Amount⟩, e1⟩ :: tail ∧
        ((e1 ≠ none ∧ ∃ rb, tail = [⟨.Rollback h, rb⟩]) ∨
          (e1 = none ∧ ∃ e2 fin,
            tail = [⟨.AddAccountBalance (.tx h)
                      ⟨max arg.FromAccountID arg.ToAccountID,
                        if arg.FromAccountID < arg.ToAccountID then arg.Amount
                        else neg64 arg.Amount⟩, e2⟩, fin] ∧
            (fin.call = .Commit h ∨ fin.call = .Rollback h))) := by
  rcases hout : store.TransferTx arg w with ⟨⟨res, e⟩, w2⟩
  rw [hout] at hlog
  simp only at hlog
  refine ⟨w.nextTx, ?_⟩
  rcases TransferTx_cases hout with ⟨f, -, -, hl⟩ | ⟨f, calls, rb, hrun, hl, -⟩ | ⟨hl, -⟩
  · rw [hl] at hlog
    have := List.append_cancel_left hlog
    simp at this
  · rw [hl] at hlog
    have hc := List.append_cancel_left hlog
    simp only [List.cons.injEq, true_and] at hc
    rw [← firstIncrement_eq, ← secondIncrement_eq]
    cases hrun with
    | createTransfer => simp at hc
    | fromEntry => simp at hc
    | toEntry => simp at hc
    | firstIncrement =>
      simp only [okEntries, insertCalls, List.map_cons, List.map_nil, List.cons_append,
        List.nil_append, List.cons.injEq, LogEntry.mk.injEq, and_true] at hc
      obtain ⟨h1, h2, h3, h4⟩ := hc
      exact ⟨h1.symm, h2.symm, h3.symm, some f, _, h4.symm, Or.inl ⟨by simp, rb, rfl⟩⟩
    | secondIncrement r1 hr1 =>
      simp only [okEntries, insertCalls, List.map_cons, List.map_nil, List.cons_append,
        List.nil_append, List.cons.injEq, LogEntry.mk.injEq, and_true] at hc
      obtain ⟨h1, h2, h3, h4⟩ := hc
      exact ⟨h1.symm, h2.symm, h3.symm, none, _, h4.symm,
        Or.inr ⟨rfl, some f, _, rfl, Or.inr rfl⟩⟩
  · rw [hl] at hlog
    have hc := List.append_cancel_left hlog
    rw [← firstIncrement_eq, ← secondIncrement_eq]
    simp only [okEntries, insertCalls, List.map_cons, List.map_nil, List.cons_append,
      List.nil_append, List.cons.injEq, LogEntry.mk.injEq, and_true, true_and] at hc
    obtain ⟨h1, h2, h3, h4⟩ := hc
    exact ⟨h1.symm, h2.symm, h3.symm, none, _, h4.symm,
      Or.inr ⟨rfl, none, _, rfl, Or.inl rfl⟩⟩

theorem TransferTx_lock_order_witness :
    ∃ h : Nat, ∃ e1 tail,
      [(⟨.AddAccountBalance (.tx 7) ⟨1, 100⟩, none⟩ : LogEntry),
        ⟨.AddAccountBalance (.tx 7) ⟨2, -100⟩, none⟩, ⟨.Commit 7, none⟩] =
        ⟨.AddAccountBalance (.tx h) ⟨1, 100⟩, e1⟩ :: tail ∧
      ((e1 ≠ none ∧ ∃ rb, tail = [⟨.Rollback h, rb⟩]) ∨
        (e1 = none ∧ ∃ e2 fin,
          tail = [⟨.AddAccountBalance (.tx h) ⟨2, -100⟩, e2⟩, fin] ∧
          (fin.call = .Commit h ∨ fin.call = .Rollback h))) := by
  obtain ⟨h, -, -, -, e1, tail, h1, h2⟩ :=
    TransferTx_lock_order NewStore ⟨2, 1, 100⟩ reverseWorld
      (.CreateTransfer (.tx 7) ⟨2, 1, 100⟩) (.CreateEntry (.tx 7) ⟨2, -100⟩)
      (.CreateEntry (.tx 7) ⟨1, 100⟩)
      [⟨.AddAccountBalance (.tx 7) ⟨1, 100⟩, none⟩,
        ⟨.AddAccountBalance (.tx 7) ⟨2, -100⟩, none⟩, ⟨.Commit 7, none⟩]
      (by decide)
  exact ⟨h, e1, tail, h1, h2⟩

/-! ## What comes back with an error -/

/-- C6, as stated, fails: when the entry insert for the source fails, the
error comes back with a result that already holds the created Transfer. -/
theorem TransferTx_partial_result_counterexample :
    (NewStore.TransferTx ⟨1, 2, 100⟩ partialWorld).1.2 = some (.pq "connection lost") ∧
    (NewStore.TransferTx ⟨1, 2, 100⟩ partialWorld).1.1.Transfer = ⟨1, 1, 2, 100, 0⟩ ∧
    (NewStore.TransferTx ⟨1, 2, 100⟩ partialWorld).1.1 ≠ TransferTxResult.zero := by
  decide

/-- C6, amended. When `TransferTx` returns a non-nil error, the result returned
with it is the zero value if the begin or the transfer insert failed; if a
later accessor call failed it holds the rows returned by the calls that
completed before it (the Transfer, then the source Entry, then the destination
Entry, then the snapshot of the account incremented first) and zero values in
the other fields; and if only the commit failed it holds all five rows. -/
theorem TransferTx_result_on_error (store : Store) (arg : TransferTxParams) (w w2 : World)
    (res : TransferTxResult) (err : Error)
    (hout : store.TransferTx arg w = ((res, some err), w2)) :
    (res = TransferTxResult.zero ∧ w2.log = w.log ++ [⟨.BeginTx, some err⟩]) ∨
    (∃ f calls rb, FailedRun arg w.env w.db w.nextTx f calls res ∧
      w2.log = w.log ++ ⟨.BeginTx, none⟩ :: (calls ++ [⟨.Rollback w.nextTx, rb⟩])) ∨
    (w2.log = w.log ++ ⟨.BeginTx, none⟩ ::
        (okEntries (insertCalls arg w.nextTx ++
          [.AddAccountBalance (.tx w.nextTx) (firstIncrement arg),
           .AddAccountBalance (.tx w.nextTx) (secondIncrement arg)]) ++
        [⟨.Commit w.nextTx, some err⟩]) ∧
      ∃ r1 r2, w.db.getAccount (firstIncrement arg).ID = some r1 ∧
        DB.getAccount
          { w.db with accounts := w.db.accounts.map (bumpBalance (firstIncrement arg)) }
          (secondIncrement arg).ID = some r2 ∧
        res = fullResult arg w.env r1 r2) := by
  rcases TransferTx_cases hout with ⟨f, he, hres, hl⟩ | ⟨f, calls, rb, hrun, hl, -⟩ | h
  · simp only [Option.some.injEq] at he
    subst he
    exact Or.inl ⟨hres, hl⟩
  · exact Or.inr (Or.inl ⟨f, calls, rb, hrun, hl⟩)
  · exact Or.inr (Or.inr h)

theorem TransferTx_result_on_error_witness :
    ((NewStore.TransferTx ⟨1, 2, 100⟩ partialWorld).1.1 = TransferTxResult.zero ∧
      (NewStore.TransferTx ⟨1, 2, 100⟩ partialWorld).2.log =
        partialWorld.log ++ [⟨.BeginTx, some (.pq "connection lost")⟩]) ∨
    (∃ f calls rb,
      FailedRun ⟨1, 2, 100⟩ partialWorld.env partialWorld.db partialWorld.nextTx f calls
        (NewStore.TransferTx ⟨1, 2, 100⟩ partialWorld).1.1 ∧
      (NewStore.TransferTx ⟨1, 2, 100⟩ partialWorld).2.log =
        partialWorld.log ++
          ⟨.BeginTx, none⟩ :: (calls ++ [⟨.Rollback partialWorld.nextTx, rb⟩])) ∨
    ((NewStore.TransferTx ⟨1, 2, 100⟩ partialWorld).2.log =
        partialWorld.log ++ ⟨.BeginTx, none⟩ ::
          (okEntries (insertCalls ⟨1, 2, 100⟩ partialWorld.nextTx ++
            [.AddAccountBalance (.tx partialWorld.nextTx) (firstIncrement ⟨1, 2, 100⟩),
             .AddAccountBalance (.tx partialWorld.nextTx) (secondIncrement ⟨1, 2, 100⟩)]) ++
          [⟨.Commit partialWorld.nextTx, some (.pq "connection lost")⟩]) ∧
      ∃ r1 r2, partialWorld.db.getAccount (firstIncrement ⟨1, 2, 100⟩).ID = some r1 ∧
        DB.getAccount
          { partialWorld.db with
            accounts := partialWorld.db.accounts.map (bumpBalance (firstIncrement ⟨1, 2, 100⟩)) }
          (secondIncrement ⟨1, 2, 100⟩).ID = some r2 ∧
        (NewStore.TransferTx ⟨1, 2, 100⟩ partialWorld).1.1 =
          fullResult ⟨1, 2, 100⟩ partialWorld.env r1 r2) :=
  TransferTx_result_on_error NewStore ⟨1, 2, 100⟩ partialWorld
    (NewStore.TransferTx ⟨1, 2, 100⟩ partialWorld).2
    (NewStore.TransferTx ⟨1, 2, 100⟩ partialWorld).1.1 (.pq "connection lost") (by decide)

/-! ## Which error comes back -/

theorem fmtErrorf_ne (err rbErr : Error) : fmtErrorf err rbErr ≠ err := by
  intro h
  cases err with
  | errorString msg =>
    simp only [fmtErrorf, Error.Error, Error.errorString.injEq] at h
    have hl := congrArg String.length h
    simp only [String.length_append] at hl
    have h8 : "tx err: ".length = 8 := by decide
    have h10 : ", rb err: ".length = 10 := by decide
    omega
  | ErrNoRows => simp [fmtErrorf] at h
  | ErrTxDone => simp [fmtErrorf] at h
  | Canceled => simp [fmtErrorf] at h
  | pq msg => simp [fmtErrorf] at h

theorem FailedRun.err_eq {arg : TransferTxParams} {env : Env} {d : DB} {h : Nat} {f : Error}
    {calls : List LogEntry} {res : TransferTxResult} (hrun : FailedRun arg env d h f calls res)
    {c : Call} {e : Error} (hmem : (⟨c, some e⟩ : LogEntry) ∈ calls) : e = f := by
  cases hrun <;>
    simp only [okEntries, insertCalls, List.map_cons, List.map_nil, List.cons_append,
      List.nil_append, List.mem_cons, List.mem_singleton, LogEntry.mk.injEq,
      List.not_mem_nil, or_false, Option.some.injEq, and_false, false_or, or_self,
      reduceCtorEq] at hmem <;>
    exact hmem.2

theorem FailedRun.isAccessor {arg : TransferTxParams} {env : Env} {d : DB} {h : Nat}
    {f : Error} {calls : List LogEntry} {res : TransferTxResult}
    (hrun : FailedRun arg env d h f calls res) {x : LogEntry} (hmem : x ∈ calls) :
    x.call.isAccessor = true := by
  cases hrun <;>
    simp only [okEntries, insertCalls, List.map_cons, List.map_nil, List.cons_append,
      List.nil_append, List.mem_cons, List.mem_singleton, List.not_mem_nil, or_false] at hmem <;>
    rcases hmem with hm | hm | hm | hm | hm <;> (try rw [hm]) <;> rfl

/-- C7. Error identity through the executor.  For every unit of work that
returns an error `e` in the transaction `execTx` opened, `execTx` returns
exactly `e` when the rollback succeeds, and when the rollback fails with `r`
it returns an error distinct from `e` whose message embeds the messages of `e`
and of `r`.  In `TransferTx` the error `e` is that of the accessor call that
failed, and `TransferTx` returns to its caller what `execTx` returned. -/
theorem execTx_error_identity (store : Store) :
    (∀ (ρ : Type) (fn : Queries → ρ → World → (ρ × Option Error) × World) (r r2 : ρ)
        (w w1 wf : World) (tx : Nat) (e : Error),
      BeginTx w = ((tx, none), w1) → fn (New (.tx tx)) r w1 = ((r2, some e), wf) →
      ((Rollback tx wf).1 = none → (store.execTx fn r w).1.2 = some e) ∧
      (∀ rbErr, (Rollback tx wf).1 = some rbErr →
        ∃ c, (store.execTx fn r w).1.2 = some c ∧ c ≠ e ∧
          c.Error = "tx err: " ++ e.Error ++ ", rb err: " ++ rbErr.Error)) ∧
    (∀ (arg : TransferTxParams) (w : World) (new : List LogEntry) (c : Call) (e : Error)
        (h : Nat) (rb : Option Error),
      (store.TransferTx arg w).2.log = w.log ++ new → c.isAccessor = true →
      ⟨c, some e⟩ ∈ new → ⟨.Rollback h, rb⟩ ∈ new →
      (store.TransferTx arg w).1.2 = (store.execTx (transferFn arg) TransferTxResult.zero w).1.2 ∧
      (rb = none → (store.TransferTx arg w).1.2 = some e) ∧
      (∀ rbErr, rb = some rbErr →
        ∃ k, (store.TransferTx arg w).1.2 = some k ∧ k ≠ e ∧
          k.Error = "tx err: " ++ e.Error ++ ", rb err: " ++ rbErr.Error)) := by
  constructor
  · intro ρ fn r r2 w w1 wf tx e hb hfn
    rcases hrb : Rollback tx wf with ⟨rb, w3⟩
    constructor
    · intro hnone
      simp only at hnone
      subst hnone
      simp [Store.execTx, hb, hfn, hrb]
    · intro rbErr hsome
      simp only at hsome
      subst hsome
      exact ⟨fmtErrorf e rbErr, by simp [Store.execTx, hb, hfn, hrb], fmtErrorf_ne e rbErr, rfl⟩
  · intro arg w new c e h rb hlog hacc hmem hrbmem
    refine ⟨rfl, ?_⟩
    rcases hout : store.TransferTx arg w with ⟨⟨res, err⟩, w2⟩
    rw [hout] at hlog
    simp only at hlog ⊢
    rcases TransferTx_cases hout with ⟨f, -, -, hl⟩ | ⟨f, calls, rb2, hrun, hl, herr⟩ | ⟨hl, -⟩
    · rw [hl] at hlog
      have hn := List.append_cancel_left hlog
      subst hn
      simp only [List.mem_singleton, LogEntry.mk.injEq] at hmem
      rw [hmem.1] at hacc
      simp [Call.isAccessor] at hacc
    · rw [hl] at hlog
      have hn := List.append_cancel_left hlog
      subst hn
      have key : f = e ∧ rb2 = rb := by
        simp only [List.mem_cons, List.mem_append, List.mem_singleton, LogEntry.mk.injEq,
          List.not_mem_nil, or_false] at hmem hrbmem
        constructor
        · rcases hmem with hm | hm | hm
          · simp at hm
          · exact (hrun.err_eq hm).symm
          · rw [hm.1] at hacc
            simp [Call.isAccessor] at hacc
        · rcases hrbmem with hr | hr | hr
          · simp at hr
          · have := hrun.isAccessor hr
            simp [Call.isAccessor] at this
          · exact hr.2.symm
      obtain ⟨hfe, hrbe⟩ := key
      subst hfe hrbe
      constructor
      · intro hnone
        subst hnone
        exact herr
      · intro rbErr hsome
        subst hsome
        exact ⟨fmtErrorf f rbErr, herr, fmtErrorf_ne f rbErr, rfl⟩
    · rw [hl] at hlog
      have hn := List.append_cancel_left hlog
      subst hn
      exfalso
      simp only [okEntries, List.mem_cons, List.mem_append, List.mem_singleton, List.mem_map,
        LogEntry.mk.injEq, List.not_mem_nil, or_false] at hmem
      rcases hmem with hm | ⟨x, -, hx⟩ | hm
      · simp at hm
      · simp at hx
      · rw [hm.1] at hacc
        simp [Call.isAccessor] at hacc

theorem execTx_error_identity_witness :
    (∃ c, (NewStore.execTx (transferFn ⟨1, 2, 100⟩) TransferTxResult.zero
          rollbackFailsWorld).1.2 = some c ∧ c ≠ .Canceled ∧
        c.Error = "tx err: " ++ Error.Canceled.Error ++ ", rb err: " ++
          (Error.pq "broken pipe").Error) ∧
    (∃ k, (NewStore.TransferTx ⟨1, 2, 100⟩ rollbackFailsWorld).1.2 = some k ∧ k ≠ .Canceled ∧
        k.Error = "tx err: " ++ Error.Canceled.Error ++ ", rb err: " ++
          (Error.pq "broken pipe").Error) :=
  ⟨((execTx_error_identity NewStore).1 TransferTxResult (transferFn ⟨1, 2, 100⟩)
      TransferTxResult.zero
      (transferFn ⟨1, 2, 100⟩ (New (.tx 0)) TransferTxResult.zero
        (BeginTx rollbackFailsWorld).2).1.1
      rollbackFailsWorld (BeginTx rollbackFailsWorld).2
      (transferFn ⟨1, 2, 100⟩ (New (.tx 0)) TransferTxResult.zero
        (BeginTx rollbackFailsWorld).2).2
      0 .Canceled (by decide) (by decide)).2 (.pq "broken pipe") (by decide),
   ((execTx_error_identity NewStore).2 ⟨1, 2, 100⟩ rollbackFailsWorld
      (NewStore.TransferTx ⟨1, 2, 100⟩ rollbackFailsWorld).2.log
      (.AddAccountBalance (.tx 0) ⟨2, 100⟩) .Canceled 0 (some (.pq "broken pipe"))
      (by decide) (by decide) (by decide) (by decide)).2.2 (.pq "broken pipe") rfl⟩

/-! ## The commit/rollback decision -/

/-- C9. Commit/rollback decision of `execTx`.  If opening the transaction
fails, the unit of work is not run and that error is returned.  Once the
transaction `tx` is open, `execTx` runs the unit of work once, on an accessor
bound to `tx`, in the world the begin left; when the unit of work returns no
error `execTx` commits `tx`, once, in the world the unit of work left, and
returns exactly the commit outcome; when it returns an error `execTx` rolls
`tx` back, once, in that world, commits nothing and returns an error. -/
theorem execTx_commit_or_rollback {ρ : Type} (store : Store)
    (fn : Queries → ρ → World → (ρ × Option Error) × World) (r : ρ) (w : World) :
    (∀ tx f w1, BeginTx w = ((tx, some f), w1) → store.execTx fn r w = ((r, some f), w1)) ∧
    (∀ tx w1, BeginTx w = ((tx, none), w1) →
      (∀ r2 wf, fn (New (.tx tx)) r w1 = ((r2, none), wf) →
        store.execTx fn r w = ((r2, (Commit tx wf).1), (Commit tx wf).2) ∧
        (store.execTx fn r w).2.log =
          wf.log ++ [⟨.Commit tx, (store.execTx fn r w).1.2⟩]) ∧
      (∀ r2 err wf, fn (New (.tx tx)) r w1 = ((r2, some err), wf) →
        (store.execTx fn r w).1.1 = r2 ∧ (store.execTx fn r w).1.2 ≠ none ∧
        (store.execTx fn r w).2 = (Rollback tx wf).2 ∧
        (store.execTx fn r w).2.log = wf.log ++ [⟨.Rollback tx, (Rollback tx wf).1⟩])) := by
  refine ⟨?_, ?_⟩
  · intro tx f w1 hb
    simp [Store.execTx, hb]
  · intro tx w1 hb
    refine ⟨?_, ?_⟩
    · intro r2 wf hfn
      have heq : store.execTx fn r w = ((r2, (Commit tx wf).1), (Commit tx wf).2) := by
        simp [Store.execTx, hb, hfn]
      refine ⟨heq, ?_⟩
      rw [heq]
      exact Commit_log tx wf
    · intro r2 err wf hfn
      rcases hrb : Rollback tx wf with ⟨rb, w3⟩
      have hlog := Rollback_log tx wf
      rw [hrb] at hlog
      simp only at hlog
      cases rb <;> simp [Store.execTx, hb, hfn, hrb, hlog]

theorem execTx_commit_or_rollback_witness :
    NewStore.execTx (transferFn ⟨1, 2, 100⟩) TransferTxResult.zero scenarioWorld =
      (((transferFn ⟨1, 2, 100⟩ (New (.tx 0)) TransferTxResult.zero
            (BeginTx scenarioWorld).2).1.1,
        (Commit 0 (transferFn ⟨1, 2, 100⟩ (New (.tx 0)) TransferTxResult.zero
            (BeginTx scenarioWorld).2).2).1),
       (Commit 0 (transferFn ⟨1, 2, 100⟩ (New (.tx 0)) TransferTxResult.zero
            (BeginTx scenarioWorld).2).2).2) ∧
    (NewStore.execTx (transferFn ⟨1, 2, 100⟩) TransferTxResult.zero partialWorld).1.2 ≠ none ∧
    (NewStore.execTx (transferFn ⟨1, 2, 100⟩) TransferTxResult.zero partialWorld).2 =
      (Rollback 0 (transferFn ⟨1, 2, 100⟩ (New (.tx 0)) TransferTxResult.zero
            (BeginTx partialWorld).2).2).2 :=
  ⟨(((execTx_commit_or_rollback NewStore (transferFn ⟨1, 2, 100⟩) TransferTxResult.zero
        scenarioWorld).2 0 (BeginTx scenarioWorld).2 (by decide)).1
      (transferFn ⟨1, 2, 100⟩ (New (.tx 0)) TransferTxResult.zero (BeginTx scenarioWorld).2).1.1
      (transferFn ⟨1, 2, 100⟩ (New (.tx 0)) TransferTxResult.zero (BeginTx scenarioWorld).2).2
      (by decide)).1,
   (((execTx_commit_or_rollback NewStore (transferFn ⟨1, 2, 100⟩) TransferTxResult.zero
        partialWorld).2 0 (BeginTx partialWorld).2 (by decide)).2
      (transferFn ⟨1, 2, 100⟩ (New (.tx 0)) TransferTxResult.zero (BeginTx partialWorld).2).1.1
      (.pq "connection lost")
      (transferFn ⟨1, 2, 100⟩ (New (.tx 0)) TransferTxResult.zero (BeginTx partialWorld).2).2
      (by decide)).2.1,
   (((execTx_commit_or_rollback NewStore (transferFn ⟨1, 2, 100⟩) TransferTxResult.zero
        partialWorld).2 0 (BeginTx partialWorld).2 (by decide)).2
      (transferFn ⟨1, 2, 100⟩ (New (.tx 0)) TransferTxResult.zero (BeginTx partialWorld).2).1.1
      (.pq "connection lost")
      (transferFn ⟨1, 2, 100⟩ (New (.tx 0)) TransferTxResult.zero (BeginTx partialWorld).2).2
      (by decide)).2.2.1⟩

/-! ## The ledger invariant -/

theorem entrySum_append_pair (es : List Entry) (e1 e2 : Entry) (id : Int) :
    entrySum (es ++ [e1, e2]) id =
      entrySum es id + ((if e1.AccountID = id then e1.Amount else 0) +
        (if e2.AccountID = id then e2.Amount else 0)) := by
  unfold entrySum
  rw [List.filter_append, List.map_append, List.sum_append]
  congr 1
  by_cases h1 : e1.AccountID = id
  · by_cases h2 : e2.AccountID = id <;> simp [List.filter_cons, h1, h2]
  · by_cases h2 : e2.AccountID = id <;> simp [List.filter_cons, h1, h2]

theorem increments_eq_entries (arg : TransferTxParams) (env : Env) (id : Int) :
    (if id = (firstIncrement arg).ID then (firstIncrement arg).Amount else 0) +
        (if id = (secondIncrement arg).ID then (secondIncrement arg).Amount else 0) =
      (if (fromEntryRow arg env).AccountID = id then (fromEntryRow arg env).Amount else 0) +
        (if (toEntryRow arg env).AccountID = id then (toEntryRow arg env).Amount else 0) := by
  have e1 : arg.FromAccountID = id ↔ id = arg.FromAccountID := eq_comm
  have e2 : arg.ToAccountID = id ↔ id = arg.ToAccountID := eq_comm
  unfold firstIncrement secondIncrement fromEntryRow toEntryRow
  simp only [e1, e2]
  by_cases hlt : arg.FromAccountID < arg.ToAccountID
  · simp only [hlt, if_true]
  · simp only [hlt, if_false]
    split_ifs <;> omega

theorem bumpBalance_exact {p : AddAccountBalanceParams} {a : Account}
    (h : a.ID = p.ID → isInt64 (a.Balance + p.Amount)) :
    (bumpBalance p a).Balance = a.Balance + (if a.ID = p.ID then p.Amount else 0) := by
  unfold bumpBalance
  split
  · next hid => exact wrap64_of_isInt64 (h hid)
  · simp

/-- C10. Ledger invariant preserved by `TransferTx`: if before the call every
account's balance equals a fixed opening value plus the sum of the amounts of
the Entry rows of that account, the same holds after any `TransferTx` call,
successful or failed, for every `from`, `to` and `amount` (also `from == to`
and non-positive amounts).  With the sums taken in `int64` this holds for every
store; it holds for the plain integers when the store rejects a balance
outside `int64`. -/
theorem TransferTx_ledger (store : Store) (arg : TransferTxParams) (w : World)
    (opening : Int → Int) :
    (ledgerHolds64 opening w.db → ledgerHolds64 opening (store.TransferTx arg w).2.db) ∧
    (w.env.checked = true → ledgerHolds opening w.db →
      ledgerHolds opening (store.TransferTx arg w).2.db) := by
  rcases hout : store.TransferTx arg w with ⟨⟨res, e⟩, w2⟩
  cases e with
  | some err =>
    have hdb : w2.db = w.db := by
      have := execTx_db_of_err store (transferFn arg) (transferFn_tx_db arg)
        TransferTxResult.zero w
      unfold Store.TransferTx at hout
      rw [hout] at this
      exact this (by simp)
    simp only [hdb]
    exact ⟨fun h => h, fun _ h => h⟩
  | none =>
    obtain ⟨r1, r2, -, -, -, hdb, -, hrange⟩ := TransferTx_ok_inv hout
    simp only [hdb]
    constructor
    · intro hinv a2 ha2
      simp only [List.mem_map, exists_exists_and_eq_and] at ha2
      obtain ⟨a, ha, rfl⟩ := ha2
      simp only [bumpBalance_ID]
      rw [entrySum_append_pair, ← increments_eq_entries arg w.env a.ID, wrap64_bumpBalance,
        wrap64_bumpBalance_add, bumpBalance_ID, add_assoc a.Balance, ← wrap64_wrap64_add,
        hinv a ha, wrap64_wrap64_add, add_assoc]
    · intro hck hinv a2 ha2
      simp only [List.mem_map, exists_exists_and_eq_and] at ha2
      obtain ⟨a, ha, rfl⟩ := ha2
      obtain ⟨hr1, hr2⟩ := hrange hck
      simp only [bumpBalance_ID]
      have h1 : (bumpBalance (firstIncrement arg) a).Balance =
          a.Balance + (if a.ID = (firstIncrement arg).ID then (firstIncrement arg).Amount
            else 0) :=
        bumpBalance_exact (hr1 a ha)
      have h2 : (bumpBalance (secondIncrement arg) (bumpBalance (firstIncrement arg) a)).Balance =
          (bumpBalance (firstIncrement arg) a).Balance +
            (if a.ID = (secondIncrement arg).ID then (secondIncrement arg).Amount else 0) := by
        have := bumpBalance_exact (p := secondIncrement arg)
          (a := bumpBalance (firstIncrement arg) a)
          (hr2 _ (List.mem_map_of_mem _ ha))
        rw [bumpBalance_ID] at this
        exact this
      rw [h2, h1, entrySum_append_pair, ← increments_eq_entries arg w.env a.ID, hinv a ha]
      ring

theorem TransferTx_ledger_witness :
    ledgerHolds64 scenarioOpening (NewStore.TransferTx ⟨1, 1, -5⟩ scenarioWorld).2.db ∧
    ledgerHolds scenarioOpening (NewStore.TransferTx ⟨1, 1, -5⟩ scenarioWorld).2.db ∧
    (NewStore.TransferTx ⟨1, 1, -5⟩ scenarioWorld).1.2 = none :=
  ⟨(TransferTx_ledger NewStore ⟨1, 1, -5⟩ scenarioWorld scenarioOpening).1
      (by unfold ledgerHolds64; decide),
   (TransferTx_ledger NewStore ⟨1, 1, -5⟩ scenarioWorld scenarioOpening).2
      (by decide) (by unfold ledgerHolds; decide),
   by decide⟩

/-! ## The frame of a successful transfer -/

/-- C11. Frame of a successful `TransferTx`: a successful transfer `(from, to,
amount)` appends exactly one Transfer row and exactly two Entry rows, those of
its result, to the rows that existed before, which stay as they were; the
accounts stay the same rows in the same order with their id, owner, currency
and creation timestamp, and an account other than `from` and `to` is
unchanged in every field. -/
theorem TransferTx_frame (store : Store) (arg : TransferTxParams) (w w2 : World)
    (res : TransferTxResult) (hok : store.TransferTx arg w = ((res, none), w2)) :
    w2.db.transfers = w.db.transfers ++ [res.Transfer] ∧
    w2.db.entries = w.db.entries ++ [res.FromEntry, res.ToEntry] ∧
    List.Forall₂
      (fun a a2 => a2.ID = a.ID ∧ a2.Owner = a.Owner ∧ a2.Currency = a.Currency ∧
        a2.CreatedAt = a.CreatedAt ∧
        (a.ID ≠ arg.FromAccountID → a.ID ≠ arg.ToAccountID → a2 = a))
      w.db.accounts w2.db.accounts := by
  obtain ⟨r1, r2, -, -, hres, hdb, -, -⟩ := TransferTx_ok_inv hok
  subst hres
  rw [hdb]
  refine ⟨rfl, rfl, ?_⟩
  simp only [List.forall₂_map_right_iff, List.forall₂_same]
  intro a _
  have hfields : ∀ (p : AddAccountBalanceParams) (x : Account),
      (bumpBalance p x).ID = x.ID ∧ (bumpBalance p x).Owner = x.Owner ∧
      (bumpBalance p x).Currency = x.Currency ∧ (bumpBalance p x).CreatedAt = x.CreatedAt := by
    intro p x
    unfold bumpBalance
    split <;> exact ⟨rfl, rfl, rfl, rfl⟩
  obtain ⟨i1, o1, c1, t1⟩ := hfields (firstIncrement arg) a
  obtain ⟨i2, o2, c2, t2⟩ :=
    hfields (secondIncrement arg) (bumpBalance (firstIncrement arg) a)
  refine ⟨i2.trans i1, o2.trans o1, c2.trans c1, t2.trans t1, ?_⟩
  intro hf ht
  have h1 : a.ID ≠ (firstIncrement arg).ID := by
    unfold firstIncrement; split <;> assumption
  have h2 : a.ID ≠ (secondIncrement arg).ID := by
    unfold secondIncrement; split <;> assumption
  rw [bumpBalance_of_ne h1, bumpBalance_of_ne h2]

theorem TransferTx_frame_witness :
    (NewStore.TransferTx ⟨1, 2, 100⟩ scenarioWorld).2.db.transfers = [⟨1, 1, 2, 100, 0⟩] ∧
    (NewStore.TransferTx ⟨1, 2, 100⟩ scenarioWorld).2.db.entries =
      [⟨1, 1, -100, 0⟩, ⟨2, 2, 100, 0⟩] ∧
    (NewStore.TransferTx ⟨1, 2, 100⟩ scenarioWorld).2.db.accounts =
      [⟨1, "ann", 900, "USD", 0⟩, ⟨2, "bob", 600, "USD", 0⟩] ∧
    List.Forall₂
      (fun a a2 => a2.ID = a.ID ∧ a2.Owner = a.Owner ∧ a2.Currency = a.Currency ∧
        a2.CreatedAt = a.CreatedAt ∧ (a.ID ≠ 1 → a.ID ≠ 2 → a2 = a))
      scenarioWorld.db.accounts (NewStore.TransferTx ⟨1, 2, 100⟩ scenarioWorld).2.db.accounts :=
  ⟨by decide, by decide, by decide,
    (TransferTx_frame NewStore ⟨1, 2, 100⟩ scenarioWorld
      (NewStore.TransferTx ⟨1, 2, 100⟩ scenarioWorld).2
      (NewStore.TransferTx ⟨1, 2, 100⟩ scenarioWorld).1.1 (by decide)).2.2⟩

/-! ## Runs in which nothing fails -/

theorem quietFor_nextFault {n : Nat} {l : List (Option Error)} (h : quietFor (n + 1) l) :
    nextFault l = none := by
  cases l with
  | nil => rfl
  | cons f l => exact h f (by simp)

theorem quietFor_tail {n : Nat} {l : List (Option Error)} (h : quietFor (n + 1) l) :
    quietFor n l.tail := by
  cases l with
  | nil => intro f hf; simp at hf
  | cons g l =>
    intro f hf
    exact h f (by simp only [List.take_succ_cons, List.mem_cons]; exact Or.inr hf)

/-- An accessor call on an open transaction succeeds when no failure is
injected and its statement succeeds. -/
theorem exec_tx_ok {α : Type} {h : Nat} {call : Call} {zero : α}
    {stmt : Env → DB → Except Error (α × DB × Env)} {w : World} {d d2 : DB}
    {rest : List (Nat × DB)} {i : α} {env2 : Env}
    (htx : w.txs = (h, d) :: rest) (hf : nextFault w.faults = none)
    (hs : stmt w.env d = .ok (i, d2, env2)) :
    (New (.tx h)).exec call zero stmt w =
      ((i, none), { w with txs := (h, d2) :: rest, env := env2, faults := w.faults.tail,
                           log := w.log ++ [⟨call, none⟩] }) := by
  unfold Queries.exec
  simp [New, World.view, htx, txLookup_head, hf, hs, World.put, World.record, World.popFault,
    txStore_head]

theorem getAccount_hasAccount {d : DB} {id : Int} {a : Account}
    (h : d.getAccount id = some a) : d.hasAccount id = true := by
  have hid := getAccount_ID h
  unfold DB.hasAccount
  unfold DB.getAccount at h
  rw [List.any_eq_true]
  exact ⟨a, List.mem_of_find?_eq_some h, by simp [hid]⟩

theorem addAccountBalanceStmt_succeeds {arg : AddAccountBalanceParams} {env : Env} {d : DB}
    {a : Account} (ha : d.getAccount arg.ID = some a)
    (hrange : env.checked = true →
      ∀ r ∈ d.accounts, r.ID = arg.ID → isInt64 (r.Balance + arg.Amount)) :
    addAccountBalanceStmt arg env d =
      .ok (bumpBalance arg a, { d with accounts := d.accounts.map (bumpBalance arg) }, env) := by
  unfold addAccountBalanceStmt
  rw [ha]
  simp only
  rw [if_neg]
  rintro ⟨hck, hany⟩
  rw [List.any_eq_true] at hany
  obtain ⟨r, hr, hbad⟩ := hany
  simp only [decide_eq_true_eq] at hbad
  exact hbad.2 (hrange hck r hr hbad.1)

/-- The two increments of `addMoney` succeed on an open transaction when no
failure is injected and both statements succeed. -/
theorem addMoney_tx_ok {h : Nat} {id1 a1 id2 a2 : Int} {w : World} {d : DB}
    {rest : List (Nat × DB)} {r1 r2 : Account}
    (htx : w.txs = (h, d) :: rest) (hq : quietFor 2 w.faults)
    (hr1 : d.getAccount id1 = some r1)
    (hr2 : DB.getAccount { d with accounts := d.accounts.map (bumpBalance ⟨id1, a1⟩) } id2
      = some r2)
    (hrange1 : w.env.checked = true →
      ∀ r ∈ d.accounts, r.ID = id1 → isInt64 (r.Balance + a1))
    (hrange2 : w.env.checked = true →
      ∀ r ∈ d.accounts.map (bumpBalance ⟨id1, a1⟩), r.ID = id2 → isInt64 (r.Balance + a2)) :
    ∃ acc1 acc2 w2 d2, addMoney (New (.tx h)) id1 a1 id2 a2 w = ((acc1, acc2, none), w2) ∧
      w2.txs = (h, d2) :: rest ∧ w2.faults = w.faults.tail.tail := by
  have hf1 := quietFor_nextFault hq
  have hf2 := quietFor_nextFault (quietFor_tail hq)
  have hs1 : addAccountBalanceStmt ⟨id1, a1⟩ w.env d = _ :=
    addAccountBalanceStmt_succeeds hr1 hrange1
  have hs2 : addAccountBalanceStmt ⟨id2, a2⟩ w.env
      ⟨d.accounts.map (bumpBalance ⟨id1, a1⟩), d.entries, d.transfers⟩ = _ :=
    addAccountBalanceStmt_succeeds hr2 hrange2
  have e1 : (New (.tx h)).exec (.AddAccountBalance (New (.tx h)).db ⟨id1, a1⟩) Account.zero
      (addAccountBalanceStmt ⟨id1, a1⟩) w = _ := exec_tx_ok htx hf1 hs1
  have e2 : (New (.tx h)).exec (.AddAccountBalance (New (.tx h)).db ⟨id2, a2⟩) Account.zero
      (addAccountBalanceStmt ⟨id2, a2⟩)
      ⟨w.db, (h, ⟨d.accounts.map (bumpBalance ⟨id1, a1⟩), d.entries, d.transfers⟩) :: rest,
        w.nextTx, w.env, w.faults.tail,
        w.log ++ [⟨.AddAccountBalance (New (.tx h)).db ⟨id1, a1⟩, none⟩]⟩ = _ :=
    exec_tx_ok rfl hf2 hs2
  have heq : addMoney (New (.tx h)) id1 a1 id2 a2 w =
      ((bumpBalance ⟨id1, a1⟩ r1, bumpBalance ⟨id2, a2⟩ r2, none),
        (addMoney (New (.tx h)) id1 a1 id2 a2 w).2) ∧
      (addMoney (New (.tx h)) id1 a1 id2 a2 w).2.txs =
        (h, ⟨(d.accounts.map (bumpBalance ⟨id1, a1⟩)).map (bumpBalance ⟨id2, a2⟩),
          d.entries, d.transfers⟩) :: rest ∧
      (addMoney (New (.tx h)) id1 a1 id2 a2 w).2.faults = w.faults.tail.tail := by
    unfold addMoney Queries.AddAccountBalance
    rw [e1]
    simp only
    rw [e2]
    exact ⟨rfl, rfl, rfl⟩
  exact ⟨_, _, _, _, heq.1, heq.2.1, heq.2.2⟩

theorem increments_of_lt {arg : TransferTxParams} (h : arg.FromAccountID < arg.ToAccountID) :
    firstIncrement arg = ⟨arg.FromAccountID, neg64 arg.Amount⟩ ∧
    secondIncrement arg = ⟨arg.ToAccountID, arg.Amount⟩ := by
  unfold firstIncrement secondIncrement
  rw [if_pos h, if_pos h]
  exact ⟨rfl, rfl⟩

theorem increments_of_not_lt {arg : TransferTxParams}
    (h : ¬ arg.FromAccountID < arg.ToAccountID) :
    firstIncrement arg = ⟨arg.ToAccountID, arg.Amount⟩ ∧
    secondIncrement arg = ⟨arg.FromAccountID, neg64 arg.Amount⟩ := by
  unfold firstIncrement secondIncrement
  rw [if_neg h, if_neg h]
  exact ⟨rfl, rfl⟩

/-- The unit of work of `TransferTx` succeeds on an open transaction when no
failure is injected, both accounts exist and the store accepts the two
increments. -/
theorem transferFn_tx_ok {arg : TransferTxParams} {h : Nat} {r : TransferTxResult}
    {w : World} {d : DB} {rest : List (Nat × DB)} {r1 r2 : Account}
    (htx : w.txs = (h, d) :: rest) (hq : quietFor 5 w.faults)
    (hfrom : d.hasAccount arg.FromAccountID = true)
    (hto : d.hasAccount arg.ToAccountID = true)
    (hr1 : d.getAccount (firstIncrement arg).ID = some r1)
    (hr2 : DB.getAccount
      { d with accounts := d.accounts.map (bumpBalance (firstIncrement arg)) }
      (secondIncrement arg).ID = some r2)
    (hrange1 : w.env.checked = true → ∀ x ∈ d.accounts, x.ID = (firstIncrement arg).ID →
      isInt64 (x.Balance + (firstIncrement arg).Amount))
    (hrange2 : w.env.checked = true →
      ∀ x ∈ d.accounts.map (bumpBalance (firstIncrement arg)),
        x.ID = (secondIncrement arg).ID → isInt64 (x.Balance + (secondIncrement arg).Amount)) :
    ∃ res w2 d2, transferFn arg (New (.tx h)) r w = ((res, none), w2) ∧
      w2.txs = (h, d2) :: rest ∧ w2.faults = w.faults.tail.tail.tail.tail.tail := by
  have hq4 := quietFor_tail hq
  have hq3 := quietFor_tail hq4
  have hq2 := quietFor_tail hq3
  have hf1 := quietFor_nextFault hq
  have hf2 := quietFor_nextFault hq4
  have hf3 := quietFor_nextFault hq3
  have hs1 : createTransferStmt ⟨arg.FromAccountID, arg.ToAccountID, arg.Amount⟩ w.env d =
      .ok (transferRow arg w.env,
        ⟨d.accounts, d.entries, d.transfers ++ [transferRow arg w.env]⟩,
        ⟨w.env.transferSeq + 1, w.env.entrySeq, w.env.clock, w.env.checked⟩) := by
    simp [createTransferStmt, hfrom, hto, transferRow]
  have e1 : (New (.tx h)).exec
      (.CreateTransfer (New (.tx h)).db ⟨arg.FromAccountID, arg.ToAccountID, arg.Amount⟩)
      Transfer.zero (createTransferStmt ⟨arg.FromAccountID, arg.ToAccountID, arg.Amount⟩)
      w = _ := exec_tx_ok htx hf1 hs1
  have hs2 : createEntryStmt ⟨arg.FromAccountID, neg64 arg.Amount⟩
      ⟨w.env.transferSeq + 1, w.env.entrySeq, w.env.clock, w.env.checked⟩
      ⟨d.accounts, d.entries, d.transfers ++ [transferRow arg w.env]⟩ =
      .ok (fromEntryRow arg w.env,
        ⟨d.accounts, d.entries ++ [fromEntryRow arg w.env],
          d.transfers ++ [transferRow arg w.env]⟩,
        ⟨w.env.transferSeq + 1, w.env.entrySeq + 1, w.env.clock, w.env.checked⟩) := by
    have hfrom2 : DB.hasAccount
        ⟨d.accounts, d.entries, d.transfers ++ [transferRow arg w.env]⟩
        arg.FromAccountID = true := hfrom
    simp [createEntryStmt, hfrom2, fromEntryRow]
  have e2 : (New (.tx h)).exec
      (.CreateEntry (New (.tx h)).db ⟨arg.FromAccountID, neg64 arg.Amount⟩)
      Entry.zero (createEntryStmt ⟨arg.FromAccountID, neg64 arg.Amount⟩)
      ⟨w.db, (h, ⟨d.accounts, d.entries, d.transfers ++ [transferRow arg w.env]⟩) :: rest,
        w.nextTx, ⟨w.env.transferSeq + 1, w.env.entrySeq, w.env.clock, w.env.checked⟩,
        w.faults.tail,
        w.log ++ [⟨.CreateTransfer (New (.tx h)).db
          ⟨arg.FromAccountID, arg.ToAccountID, arg.Amount⟩, none⟩]⟩ = _ :=
    exec_tx_ok rfl hf2 hs2
  have hs3 : createEntryStmt ⟨arg.ToAccountID, arg.Amount⟩
      ⟨w.env.transferSeq + 1, w.env.entrySeq + 1, w.env.clock, w.env.checked⟩
      ⟨d.accounts, d.entries ++ [fromEntryRow arg w.env],
        d.transfers ++ [transferRow arg w.env]⟩ =
      .ok (toEntryRow arg w.env,
        ⟨d.accounts, d.entries ++ [fromEntryRow arg w.env] ++ [toEntryRow arg w.env],
          d.transfers ++ [transferRow arg w.env]⟩,
        ⟨w.env.transferSeq + 1, w.env.entrySeq + 1 + 1, w.env.clock, w.env.checked⟩) := by
    have hto2 : DB.hasAccount
        ⟨d.accounts, d.entries ++ [fromEntryRow arg w.env],
          d.transfers ++ [transferRow arg w.env]⟩
        arg.ToAccountID = true := hto
    simp [createEntryStmt, hto2, toEntryRow]
  have e3 : (New (.tx h)).exec
      (.CreateEntry (New (.tx h)).db ⟨arg.ToAccountID, arg.Amount⟩)
      Entry.zero (createEntryStmt ⟨arg.ToAccountID, arg.Amount⟩)
      ⟨w.db, (h, ⟨d.accounts, d.entries ++ [fromEntryRow arg w.env],
          d.transfers ++ [transferRow arg w.env]⟩) :: rest,
        w.nextTx, ⟨w.env.transferSeq + 1, w.env.entrySeq + 1, w.env.clock, w.env.checked⟩,
        w.faults.tail.tail,
        w.log ++ [⟨.CreateTransfer (New (.tx h)).db
          ⟨arg.FromAccountID, arg.ToAccountID, arg.Amount⟩, none⟩] ++
          [⟨.CreateEntry (New (.tx h)).db ⟨arg.FromAccountID, neg64 arg.Amount⟩, none⟩]⟩ = _ :=
    exec_tx_ok rfl hf3 hs3
  have hstart : ∃ w3 : World, w3 =
      ⟨w.db, (h, ⟨d.accounts, d.entries ++ [fromEntryRow arg w.env] ++ [toEntryRow arg w.env],
          d.transfers ++ [transferRow arg w.env]⟩) :: rest,
        w.nextTx, ⟨w.env.transferSeq + 1, w.env.entrySeq + 1 + 1, w.env.clock, w.env.checked⟩,
        w.faults.tail.tail.tail,
        w.log ++ [⟨.CreateTransfer (New (.tx h)).db
          ⟨arg.FromAccountID, arg.ToAccountID, arg.Amount⟩, none⟩] ++
          [⟨.CreateEntry (New (.tx h)).db ⟨arg.FromAccountID, neg64 arg.Amount⟩, none⟩] ++
          [⟨.CreateEntry (New (.tx h)).db ⟨arg.ToAccountID, arg.Amount⟩, none⟩]⟩ := ⟨_, rfl⟩
  obtain ⟨w3, hw3⟩ := hstart
  have htx3 : w3.txs = (h, ⟨d.accounts,
      d.entries ++ [fromEntryRow arg w.env] ++ [toEntryRow arg w.env],
      d.transfers ++ [transferRow arg w.env]⟩) :: rest := by rw [hw3]
  have hq3w : quietFor 2 w3.faults := by rw [hw3]; exact hq2
  have hfl3 : w3.faults = w.faults.tail.tail.tail := by rw [hw3]
  have hck3 : w3.env.checked = w.env.checked := by rw [hw3]
  have hstep : transferFn arg (New (.tx h)) r w =
      if arg.FromAccountID < arg.ToAccountID then
        match addMoney (New (.tx h)) arg.FromAccountID (neg64 arg.Amount) arg.ToAccountID
            arg.Amount w3 with
        | ((account1, account2, err), w4) =>
          (({ Transfer := transferRow arg w.env, FromEntry := fromEntryRow arg w.env,
              ToEntry := toEntryRow arg w.env, FromAccount := account1,
              ToAccount := account2 }, err), w4)
      else
        match addMoney (New (.tx h)) arg.ToAccountID arg.Amount arg.FromAccountID
            (neg64 arg.Amount) w3 with
        | ((account1, account2, err), w4) =>
          (({ Transfer := transferRow arg w.env, FromEntry := fromEntryRow arg w.env,
              ToEntry := toEntryRow arg w.env, FromAccount := account2,
              ToAccount := account1 }, err), w4) := by
    unfold transferFn Queries.CreateTransfer Queries.CreateEntry
    rw [e1]
    simp only
    rw [e2]
    simp only
    rw [e3, hw3]
  rw [hstep]
  by_cases hlt : arg.FromAccountID < arg.ToAccountID
  · simp only [(increments_of_lt hlt).1, (increments_of_lt hlt).2] at hr1 hr2 hrange1 hrange2
    obtain ⟨acc1, acc2, w4, d4, hm, htx4, hfl4⟩ :=
      @addMoney_tx_ok h arg.FromAccountID (neg64 arg.Amount) arg.ToAccountID arg.Amount w3 _
        rest r1 r2 htx3 hq3w hr1 hr2 (fun hc => hrange1 (hck3 ▸ hc))
        (fun hc => hrange2 (hck3 ▸ hc))
    rw [if_pos hlt, hm]
    exact ⟨_, w4, d4, rfl, htx4, by rw [hfl4, hfl3]⟩
  · simp only [(increments_of_not_lt hlt).1, (increments_of_not_lt hlt).2]
      at hr1 hr2 hrange1 hrange2
    obtain ⟨acc1, acc2, w4, d4, hm, htx4, hfl4⟩ :=
      @addMoney_tx_ok h arg.ToAccountID arg.Amount arg.FromAccountID (neg64 arg.Amount) w3 _
        rest r1 r2 htx3 hq3w hr1 hr2 (fun hc => hrange1 (hck3 ▸ hc))
        (fun hc => hrange2 (hck3 ▸ hc))
    rw [if_neg hlt, hm]
    exact ⟨_, w4, d4, rfl, htx4, by rw [hfl4, hfl3]⟩

theorem quietFor_pred {n : Nat} {l : List (Option Error)} (h : quietFor (n + 1) l) :
    quietFor n l := by
  intro f hf
  exact h f (List.mem_of_mem_take (by
    rw [List.take_take, Nat.min_eq_left (Nat.le_succ n)]
    exact hf))

theorem Commit_ok {h : Nat} {w : World} {d : DB} {rest : List (Nat × DB)}
    (htx : w.txs = (h, d) :: rest) (hf : nextFault w.faults = none) :
    (Commit h w).1 = none := by
  unfold Commit
  simp [htx, txLookup_head, hf]

/-- `TransferTx` returns no error when no failure is injected into its seven
driver interactions, both accounts exist and the store accepts the two
increments: the workflow itself rejects nothing. -/
theorem TransferTx_succeeds (store : Store) (arg : TransferTxParams) (w : World)
    (r1 r2 : Account) (hq : quietFor 7 w.faults)
    (hfrom : w.db.hasAccount arg.FromAccountID = true)
    (hto : w.db.hasAccount arg.ToAccountID = true)
    (hr1 : w.db.getAccount (firstIncrement arg).ID = some r1)
    (hr2 : DB.getAccount
      { w.db with accounts := w.db.accounts.map (bumpBalance (firstIncrement arg)) }
      (secondIncrement arg).ID = some r2)
    (hrange1 : w.env.checked = true → ∀ x ∈ w.db.accounts, x.ID = (firstIncrement arg).ID →
      isInt64 (x.Balance + (firstIncrement arg).Amount))
    (hrange2 : w.env.checked = true →
      ∀ x ∈ w.db.accounts.map (bumpBalance (firstIncrement arg)),
        x.ID = (secondIncrement arg).ID → isInt64 (x.Balance + (secondIncrement arg).Amount)) :
    (store.TransferTx arg w).1.2 = none := by
  have hf0 := quietFor_nextFault hq
  have hq6 : quietFor 6 w.begun.faults := quietFor_tail hq
  have hb : BeginTx w = ((w.nextTx, none), w.begun) := by
    unfold BeginTx World.begun
    rw [hf0]
  have htx : w.begun.txs = (w.nextTx, w.db) :: w.txs := rfl
  obtain ⟨res, w2, d2, hfn, htx2, hfl2⟩ :=
    transferFn_tx_ok (r := TransferTxResult.zero) htx (quietFor_pred hq6) hfrom hto hr1 hr2
      hrange1 hrange2
  have hf6 : nextFault w2.faults = none := by
    rw [hfl2]
    exact quietFor_nextFault
      (quietFor_tail (quietFor_tail (quietFor_tail (quietFor_tail (quietFor_tail hq6)))))
  have hc := Commit_ok htx2 hf6
  simp only [Store.TransferTx, Store.execTx, hb, hfn]
  exact hc

/-! ## Degenerate inputs -/

theorem FailedRun.has_err {arg : TransferTxParams} {env : Env} {d : DB} {h : Nat} {f : Error}
    {calls : List LogEntry} {res : TransferTxResult}
    (hrun : FailedRun arg env d h f calls res) : ∃ c, (⟨c, some f⟩ : LogEntry) ∈ calls := by
  cases hrun
  · exact ⟨.CreateTransfer (.tx h) ⟨arg.FromAccountID, arg.ToAccountID, arg.Amount⟩, by simp⟩
  · exact ⟨.CreateEntry (.tx h) ⟨arg.FromAccountID, neg64 arg.Amount⟩, by simp⟩
  · exact ⟨.CreateEntry (.tx h) ⟨arg.ToAccountID, arg.Amount⟩, by simp⟩
  · exact ⟨.AddAccountBalance (.tx h) (Bank.firstIncrement arg), by simp⟩
  · exact ⟨.AddAccountBalance (.tx h) (Bank.secondIncrement arg), by simp⟩

theorem wrap64_self_transfer (b amount : Int) :
    wrap64 (wrap64 (b + amount) + neg64 amount) = wrap64 b := by
  rw [wrap64_wrap64_add, wrap64_add_neg64]
  unfold sub64
  congr 1
  ring

/-- C12. Degenerate inputs are accepted by `TransferTx`, which validates
nothing itself.  Whenever every driver interaction of a call succeeds the call
returns no error.  For every existing account `a` with balance `b` and every
amount, a self-transfer succeeds when nothing is made to fail and the store
accepts the two increments; a successful self-transfer leaves the stored
balance of `a` at `b` and returns `ToAccount.Balance == b + amount` and
`FromAccount.Balance == b`.  For distinct accounts a negative amount succeeds
in the same way and moves `|amount|` from the destination to the source.  The
arithmetic is Go's on `int64`. -/
theorem TransferTx_degenerate (store : Store) :
    (∀ (arg : TransferTxParams) (w : World) (new : List LogEntry),
      (store.TransferTx arg w).2.log = w.log ++ new → (∀ l ∈ new, l.err = none) →
      (store.TransferTx arg w).1.2 = none) ∧
    (∀ (a amount : Int) (w : World) (r : Account),
      quietFor 7 w.faults → w.db.getAccount a = some r →
      (w.env.checked = true → ∀ x ∈ w.db.accounts, x.ID = a →
        isInt64 (x.Balance + amount) ∧ isInt64 (x.Balance + amount + neg64 amount)) →
      (store.TransferTx ⟨a, a, amount⟩ w).1.2 = none) ∧
    (∀ (a amount : Int) (w w2 : World) (res : TransferTxResult) (r : Account),
      w.db.getAccount a = some r → isInt64 r.Balance →
      store.TransferTx ⟨a, a, amount⟩ w = ((res, none), w2) →
      (∃ r2, w2.db.getAccount a = some r2 ∧ r2.Balance = r.Balance) ∧
      res.ToAccount.Balance = wrap64 (r.Balance + amount) ∧
      (isInt64 (r.Balance + amount) → res.ToAccount.Balance = r.Balance + amount) ∧
      res.FromAccount.Balance = r.Balance) ∧
    (∀ (src dst amount : Int) (w : World) (rs rd : Account),
      src ≠ dst → amount < 0 → quietFor 7 w.faults →
      w.db.getAccount src = some rs → w.db.getAccount dst = some rd →
      (w.env.checked = true → ∀ x ∈ w.db.accounts,
        (x.ID = src → isInt64 (x.Balance + neg64 amount)) ∧
        (x.ID = dst → isInt64 (x.Balance + amount))) →
      (store.TransferTx ⟨src, dst, amount⟩ w).1.2 = none) ∧
    (∀ (src dst amount : Int) (w w2 : World) (res : TransferTxResult) (rs rd : Account),
      src ≠ dst → amount < 0 →
      w.db.getAccount src = some rs → w.db.getAccount dst = some rd →
      isInt64 rs.Balance → isInt64 rd.Balance →
      store.TransferTx ⟨src, dst, amount⟩ w = ((res, none), w2) →
      ∃ rs2 rd2, w2.db.getAccount src = some rs2 ∧ w2.db.getAccount dst = some rd2 ∧
        rs2.Balance = wrap64 (rs.Balance + abs amount) ∧
        rd2.Balance = wrap64 (rd.Balance - abs amount) ∧
        (isInt64 (rs.Balance + abs amount) → rs2.Balance = rs.Balance + abs amount) ∧
        (isInt64 (rd.Balance - abs amount) → rd2.Balance = rd.Balance - abs amount)) := by
  refine ⟨?_, ?_, ?_, ?_, ?_⟩
  · intro arg w new hlog hall
    rcases hout : store.TransferTx arg w with ⟨⟨res, e⟩, w2⟩
    rw [hout] at hlog
    simp only at hlog ⊢
    rcases TransferTx_cases hout with ⟨f, -, -, hl⟩ | ⟨f, calls, rb, hrun, hl, -⟩ | ⟨hl, -⟩
    · rw [hl] at hlog
      have hn := List.append_cancel_left hlog
      subst hn
      have := hall ⟨.BeginTx, some f⟩ (by simp)
      simp at this
    · rw [hl] at hlog
      have hn := List.append_cancel_left hlog
      subst hn
      obtain ⟨c, hc⟩ := hrun.has_err
      have := hall ⟨c, some f⟩ (by simp [hc])
      simp at this
    · rw [hl] at hlog
      have hn := List.append_cancel_left hlog
      subst hn
      exact hall ⟨.Commit w.nextTx, e⟩ (by simp)
  · intro a amount w r hq hr hrange
    have hnlt : ¬ (⟨a, a, amount⟩ : TransferTxParams).FromAccountID <
        (⟨a, a, amount⟩ : TransferTxParams).ToAccountID := lt_irrefl a
    have hinc : firstIncrement ⟨a, a, amount⟩ = ⟨a, amount⟩ ∧
        secondIncrement ⟨a, a, amount⟩ = ⟨a, neg64 amount⟩ := increments_of_not_lt hnlt
    have hid := getAccount_ID hr
    refine TransferTx_succeeds store ⟨a, a, amount⟩ w r
      (bumpBalance ⟨a, amount⟩ r) hq (getAccount_hasAccount hr)
      (getAccount_hasAccount hr) ?_ ?_ ?_ ?_
    · rw [hinc.1]; exact hr
    · rw [hinc.1, hinc.2, getAccount_map_bumpBalance]
      simp only
      rw [hr]
      rfl
    · rw [hinc.1]
      intro hck x hx hxid
      exact (hrange hck x hx hxid).1
    · rw [hinc.1, hinc.2]
      intro hck x hx hxid
      obtain ⟨y, hy, rfl⟩ := List.mem_map.mp hx
      rw [bumpBalance_ID] at hxid
      have hyid : y.ID = a := hxid
      obtain ⟨h1, h2⟩ := hrange hck y hy hyid
      rw [bumpBalance_Balance_of_eq (p := ⟨a, amount⟩) hyid]
      simp only
      rw [wrap64_of_isInt64 h1]
      exact h2
  · intro a amount w w2 res r hr hb hok
    have hnlt : ¬ (⟨a, a, amount⟩ : TransferTxParams).FromAccountID <
        (⟨a, a, amount⟩ : TransferTxParams).ToAccountID := lt_irrefl a
    have hinc : firstIncrement ⟨a, a, amount⟩ = ⟨a, amount⟩ ∧
        secondIncrement ⟨a, a, amount⟩ = ⟨a, neg64 amount⟩ := increments_of_not_lt hnlt
    have hid := getAccount_ID hr
    obtain ⟨r1, r2, hr1, hr2, hres, -⟩ := TransferTx_ok_inv hok
    rw [hinc.1] at hr1
    rw [hinc.1, hinc.2, getAccount_map_bumpBalance] at hr2
    simp only at hr1 hr2
    rw [hr] at hr1 hr2
    simp only [Option.some.injEq, Option.map_some'] at hr1 hr2
    subst hr1 hr2
    rw [hinc.1, hinc.2] at hres
    simp only [hnlt, if_false] at hres
    have hto : res.ToAccount.Balance = wrap64 (r.Balance + amount) := by
      rw [hres]
      exact bumpBalance_Balance_of_eq hid
    have hfrom : res.FromAccount.Balance = r.Balance := by
      rw [hres]
      simp only
      rw [bumpBalance_Balance_of_eq (by rw [bumpBalance_ID]; exact hid),
        bumpBalance_Balance_of_eq hid]
      simp only
      rw [wrap64_self_transfer, wrap64_of_isInt64 hb]
    obtain ⟨a2, ha2, hrange2, hbal⟩ := TransferTx_ok_balance hok hr
    refine ⟨⟨a2, ha2, ?_⟩, hto, fun h => by rw [hto, wrap64_of_isInt64 h], hfrom⟩
    have hs : signedAmount a ⟨a, a, amount⟩ = 0 := by simp [signedAmount]
    rw [hs, add_zero, wrap64_of_isInt64 (hrange2 hb), wrap64_of_isInt64 hb] at hbal
    exact hbal
  · intro src dst amount w rs rd hne hneg hq hs hd hrange
    have hsid := getAccount_ID hs
    have hdid := getAccount_ID hd
    by_cases hlt : src < dst
    · have hinc : firstIncrement ⟨src, dst, amount⟩ = ⟨src, neg64 amount⟩ ∧
          secondIncrement ⟨src, dst, amount⟩ = ⟨dst, amount⟩ :=
        @increments_of_lt ⟨src, dst, amount⟩ hlt
      refine TransferTx_succeeds store ⟨src, dst, amount⟩ w rs rd hq
        (getAccount_hasAccount hs) (getAccount_hasAccount hd) ?_ ?_ ?_ ?_
      · rw [hinc.1]; exact hs
      · rw [hinc.1, hinc.2, getAccount_map_bumpBalance]
        simp only
        rw [hd]
        simp only [Option.map_some', Option.some.injEq]
        exact bumpBalance_of_ne (by rw [hdid]; exact fun h => hne h.symm)
      · rw [hinc.1]
        intro hck x hx hxid
        exact (hrange hck x hx).1 hxid
      · rw [hinc.1, hinc.2]
        intro hck x hx hxid
        obtain ⟨y, hy, rfl⟩ := List.mem_map.mp hx
        rw [bumpBalance_ID] at hxid
        rw [bumpBalance_of_ne (by rw [hxid]; exact fun h => hne h.symm)]
        exact (hrange hck y hy).2 hxid
    · have hinc : firstIncrement ⟨src, dst, amount⟩ = ⟨dst, amount⟩ ∧
          secondIncrement ⟨src, dst, amount⟩ = ⟨src, neg64 amount⟩ :=
        @increments_of_not_lt ⟨src, dst, amount⟩ hlt
      refine TransferTx_succeeds store ⟨src, dst, amount⟩ w rd rs hq
        (getAccount_hasAccount hs) (getAccount_hasAccount hd) ?_ ?_ ?_ ?_
      · rw [hinc.1]; exact hd
      · rw [hinc.1, hinc.2, getAccount_map_bumpBalance]
        simp only
        rw [hs]
        simp only [Option.map_some', Option.some.injEq]
        exact bumpBalance_of_ne (by rw [hsid]; exact hne)
      · rw [hinc.1]
        intro hck x hx hxid
        exact (hrange hck x hx).2 hxid
      · rw [hinc.1, hinc.2]
        intro hck x hx hxid
        obtain ⟨y, hy, rfl⟩ := List.mem_map.mp hx
        rw [bumpBalance_ID] at hxid
        rw [bumpBalance_of_ne (by rw [hxid]; exact hne)]
        exact (hrange hck y hy).1 hxid
  · intro src dst amount w w2 res rs rd hne hneg hs hd hbs hbd hok
    obtain ⟨rs2, hs2, hrs, hbals⟩ := TransferTx_ok_balance hok hs
    obtain ⟨rd2, hd2, hrd, hbald⟩ := TransferTx_ok_balance hok hd
    have habs : abs amount = -amount := abs_of_neg hneg
    have e1 : signedAmount src ⟨src, dst, amount⟩ = abs amount := by
      simp [signedAmount, Ne.symm hne, habs]
    have e2 : signedAmount dst ⟨src, dst, amount⟩ = -abs amount := by
      simp [signedAmount, hne, habs]
    rw [e1, wrap64_of_isInt64 (hrs hbs)] at hbals
    rw [e2, wrap64_of_isInt64 (hrd hbd), ← sub_eq_add_neg] at hbald
    exact ⟨rs2, rd2, hs2, hd2, hbals, hbald,
      fun h => by rw [hbals, wrap64_of_isInt64 h], fun h => by rw [hbald, wrap64_of_isInt64 h]⟩

theorem TransferTx_degenerate_witness :
    (NewStore.TransferTx ⟨1, 1, 0⟩ scenarioWorld).1.2 = none ∧
    (NewStore.TransferTx ⟨1, 1, 50⟩ scenarioWorld).1.2 = none ∧
    ((∃ r2, (NewStore.TransferTx ⟨1, 1, 50⟩ scenarioWorld).2.db.getAccount 1 = some r2 ∧
        r2.Balance = 1000) ∧
      (NewStore.TransferTx ⟨1, 1, 50⟩ scenarioWorld).1.1.ToAccount.Balance = 1050 ∧
      (NewStore.TransferTx ⟨1, 1, 50⟩ scenarioWorld).1.1.FromAccount.Balance = 1000) ∧
    (NewStore.TransferTx ⟨1, 2, -100⟩ scenarioWorld).1.2 = none ∧
    (∃ rs2 rd2,
      (NewStore.TransferTx ⟨1, 2, -100⟩ scenarioWorld).2.db.getAccount 1 = some rs2 ∧
      (NewStore.TransferTx ⟨1, 2, -100⟩ scenarioWorld).2.db.getAccount 2 = some rd2 ∧
      rs2.Balance = 1100 ∧ rd2.Balance = 400) := by
  refine ⟨?_, ?_, ?_, ?_, ?_⟩
  · exact (TransferTx_degenerate NewStore).1 ⟨1, 1, 0⟩ scenarioWorld
      (NewStore.TransferTx ⟨1, 1, 0⟩ scenarioWorld).2.log (by decide) (by decide)
  · exact (TransferTx_degenerate NewStore).2.1 1 50 scenarioWorld ⟨1, "ann", 1000, "USD", 0⟩
      (by unfold quietFor; decide) (by decide) (by decide)
  · obtain ⟨h1, -, h3, h4⟩ := (TransferTx_degenerate NewStore).2.2.1 1 50 scenarioWorld
      (NewStore.TransferTx ⟨1, 1, 50⟩ scenarioWorld).2
      (NewStore.TransferTx ⟨1, 1, 50⟩ scenarioWorld).1.1 ⟨1, "ann", 1000, "USD", 0⟩
      (by decide) (by decide) (by decide)
    exact ⟨h1, h3 (by decide), h4⟩
  · exact (TransferTx_degenerate NewStore).2.2.2.1 1 2 (-100) scenarioWorld
      ⟨1, "ann", 1000, "USD", 0⟩ ⟨2, "bob", 500, "USD", 0⟩
      (by decide) (by decide) (by unfold quietFor; decide) (by decide) (by decide) (by decide)
  · obtain ⟨rs2, rd2, h1, h2, -, -, h5, h6⟩ :=
      (TransferTx_degenerate NewStore).2.2.2.2 1 2 (-100) scenarioWorld
        (NewStore.TransferTx ⟨1, 2, -100⟩ scenarioWorld).2
        (NewStore.TransferTx ⟨1, 2, -100⟩ scenarioWorld).1.1
        ⟨1, "ann", 1000, "USD", 0⟩ ⟨2, "bob", 500, "USD", 0⟩
        (by decide) (by decide) (by decide) (by decide) (by decide) (by decide) (by decide)
    exact ⟨rs2, rd2, h1, h2, h5 (by decide), h6 (by decide)⟩

end Bank
